import Mathlib

set_option maxHeartbeats 1600000

/-
  Verification of the flexjson repository (a tolerant / streaming JSON parser
  written in Go) against its natural-language specification.

  The development shallowly embeds the two pipelines of the source:

  * the tolerant batch pipeline (`json.go`): `Lexer.Tokenize` and
    `Parser.Parse` / `ParsePartialJSONObject`, embedded as pure functions
    over `List Char` and `List Token`;
  * the incremental decoder (`stream.go`): `StreamingParser.ProcessChar`
    and friends, embedded as a state-transition function over an explicit
    state record.  Go's reference semantics (maps are reference types,
    arrays are kept behind `*[]interface{}` pointers) are modelled with an
    explicit heap: containers are identified by numeric ids, and the heap
    maps each id to the container's current contents.

  Machine integers: Go's `strconv.ParseInt(s, 10, 64)` is modelled over
  `Int` with an explicit int64 range check.  Go's float64 values are
  represented by their source literal (both pipelines obtain floats from
  `strconv.ParseFloat` applied to the very text they accumulated, so two
  equal literals denote equal floats); `goFloatOk` models the base-10
  syntax accepted by `strconv.ParseFloat`.  Float overflow/underflow range
  errors (magnitudes beyond roughly 1.8e308) are not modelled; no claim
  involves such numbers.
-/

/-- The result value type shared by both pipelines: Go's `interface{}`
values produced by the parsers (`nil`, `bool`, `int64`, `float64`,
`string`, `[]interface{}`, `map[string]interface{}`).  Objects are
insertion-ordered association lists with unique keys, mirroring the order
in which the Go code first assigns each key; a float64 is represented by
the literal the Go code passed to `strconv.ParseFloat`. -/
inductive JValue where
  | null : JValue
  | bool (b : Bool) : JValue
  | int (n : Int) : JValue
  | float (lit : String) : JValue
  | str (s : String) : JValue
  | arr (elems : List JValue) : JValue
  | obj (entries : List (String × JValue)) : JValue

/-- Token types of the lexer (`TokenType` in `json.go`). -/
inductive TokenType where
  | error | eof | leftBrace | rightBrace | leftBracket | rightBracket
  | colon | comma | string | number | true_ | false_ | null
deriving DecidableEq

/-- A lexer token (`Token` in `json.go`). -/
structure Token where
  type : TokenType
  value : String
deriving DecidableEq

/-- Models `isDigit` from `json.go`. -/
def isDigitC (c : Char) : Bool := '0' ≤ c && c ≤ '9'

/-- Models `isAlpha` from `json.go`. -/
def isAlphaC (c : Char) : Bool :=
  ('a' ≤ c && c ≤ 'z') || ('A' ≤ c && c ≤ 'Z') || c = '_'

/-- Models `isAlphaNumeric` from `json.go`. -/
def isAlphaNumC (c : Char) : Bool := isAlphaC c || isDigitC c

/-- The scanning loop of `Lexer.scanString` (`json.go`): consume characters
until an unescaped closing quote or the end of input; a backslash followed
by another character keeps both characters in the value.  Returns the raw
string value and the input remaining after the closing quote (if any).
Note that the Go code emits the string token in both cases, closed or
truncated. -/
def scanStringChars : List Char → List Char × List Char
  | [] => ([], [])
  | c :: rest =>
    if c = '"' then ([], rest)
    else if c = '\\' then
      match rest with
      | c2 :: rest2 =>
        let (v, r) := scanStringChars rest2
        (c :: c2 :: v, r)
      | [] => ([c], [])
    else
      let (v, r) := scanStringChars rest
      (c :: v, r)

/-- Models `Lexer.scanNumber` (`json.go`): greedy scan of an optional minus sign,
digits, an optional fraction, and an optional exponent.  `l` starts at the
number's first character. -/
def scanNumberChars (l : List Char) : List Char × List Char :=
  let (neg, l1) : List Char × List Char :=
    match l with
    | '-' :: t => (['-'], t)
    | _ => ([], l)
  let intPart := l1.takeWhile isDigitC
  let l2 := l1.dropWhile isDigitC
  let (frac, l3) : List Char × List Char :=
    match l2 with
    | '.' :: t => ('.' :: t.takeWhile isDigitC, t.dropWhile isDigitC)
    | _ => ([], l2)
  let (expo, l4) : List Char × List Char :=
    match l3 with
    | c :: t =>
      if c = 'e' || c = 'E' then
        match t with
        | s1 :: t2 =>
          if s1 = '+' || s1 = '-' then
            (c :: s1 :: t2.takeWhile isDigitC, t2.dropWhile isDigitC)
          else
            (c :: t.takeWhile isDigitC, t.dropWhile isDigitC)
        | [] => ([c], [])
      else ([], l3)
    | [] => ([], l3)
  (neg ++ intPart ++ frac ++ expo, l4)

/-- Models `Lexer.scanIdentifier` (`json.go`): scan an identifier-like run and emit
a token only for `true`, `false` or `null`. -/
def scanIdentChars (l : List Char) : List Token × List Char :=
  let idt := l.takeWhile isAlphaNumC
  let rest := l.dropWhile isAlphaNumC
  let v := String.mk idt
  if v = "true" then ([Token.mk TokenType.true_ v], rest)
  else if v = "false" then ([Token.mk TokenType.false_ v], rest)
  else if v = "null" then ([Token.mk TokenType.null v], rest)
  else ([], rest)

/-- Models `Lexer.scanToken` (`json.go`): scan one token starting at character `c`
with remaining input `rest`; returns the tokens emitted (zero or one) and
the remaining input. -/
def scanToken (c : Char) (rest : List Char) : List Token × List Char :=
  match c with
  | '{' => ([Token.mk TokenType.leftBrace "\x7b"], rest)
  | '}' => ([Token.mk TokenType.rightBrace "\x7d"], rest)
  | '[' => ([Token.mk TokenType.leftBracket "["], rest)
  | ']' => ([Token.mk TokenType.rightBracket "]"], rest)
  | ':' => ([Token.mk TokenType.colon ":"], rest)
  | ',' => ([Token.mk TokenType.comma ","], rest)
  | '"' =>
    let (v, r) := scanStringChars rest
    ([Token.mk TokenType.string (String.mk v)], r)
  | ' ' | '\t' | '\r' | '\n' => ([], rest)
  | _ =>
    if isDigitC c || c = '-' then
      let (v, r) := scanNumberChars (c :: rest)
      ([Token.mk TokenType.number (String.mk v)], r)
    else if isAlphaC c then
      scanIdentChars (c :: rest)
    else ([], rest)

/-- The scanning loop of `Lexer.Tokenize` (`json.go`).  The fuel argument
only serves Lean's termination checker: every `scanToken` step consumes at
least the one character `c`, so fuel `input.length + 1` never runs out. -/
def tokenizeAux : Nat → List Char → List Token
  | 0, _ => []
  | _, [] => []
  | fuel + 1, c :: rest =>
    let (ts, r) := scanToken c rest
    ts ++ tokenizeAux fuel r

/-- Models `Lexer.Tokenize` (`json.go`) over a character list: scan all tokens and
append the end-of-input token. -/
def tokenizeChars (l : List Char) : List Token :=
  tokenizeAux (l.length + 1) l ++ [Token.mk TokenType.eof ""]

/-- Models `NewLexer` plus `Tokenize` over a Go string. -/
def tokenize (s : String) : List Token := tokenizeChars s.data

/-- Go's `strconv.ParseInt(s, 10, 64)`: optional sign, non-empty digit run,
value within the signed 64-bit range. -/
def parseGoInt64 (s : String) : Option Int :=
  let l := s.data
  let (sign, digits) : Int × List Char :=
    match l with
    | '+' :: t => (1, t)
    | '-' :: t => (-1, t)
    | _ => (1, l)
  if digits.isEmpty || !digits.all isDigitC then none
  else
    let n : Nat := digits.foldl (fun a c => a * 10 + (c.toNat - '0'.toNat)) 0
    let v : Int := sign * (n : Int)
    if -9223372036854775808 ≤ v && v ≤ 9223372036854775807 then some v else none

/-- The base-10 syntax accepted by Go's `strconv.ParseFloat(s, 64)`:
optional sign, a mantissa with at least one digit and at most one dot, and
an optional exponent with at least one digit.  (The special forms `inf`,
`nan` and hex floats cannot be produced by either pipeline's character
classes; float range errors are not modelled.) -/
def goFloatOk (s : String) : Bool :=
  let l0 := s.data
  let l1 : List Char :=
    match l0 with
    | c :: t => if c = '+' || c = '-' then t else l0
    | [] => l0
  let intD := l1.takeWhile isDigitC
  let r1 := l1.dropWhile isDigitC
  let (fracD, r2) : List Char × List Char :=
    match r1 with
    | '.' :: t => (t.takeWhile isDigitC, t.dropWhile isDigitC)
    | _ => ([], r1)
  let hasDigits : Bool := !intD.isEmpty || !fracD.isEmpty
  match r2 with
  | [] => hasDigits
  | c :: t =>
    if c = 'e' || c = 'E' then
      let t1 : List Char :=
        match t with
        | s1 :: t0 => if s1 = '+' || s1 = '-' then t0 else t
        | [] => t
      let expD := t1.takeWhile isDigitC
      let r3 := t1.dropWhile isDigitC
      hasDigits && !expD.isEmpty && r3.isEmpty
    else false

/-- Assignment `m[k] = v` on a Go map, modelled on an insertion-ordered
association list: overwrite in place if the key exists, else append. -/
def assocSet {α : Type} (l : List (String × α)) (k : String) (v : α) :
    List (String × α) :=
  match l with
  | [] => [(k, v)]
  | (k0, v0) :: t => if k0 = k then (k0, v) :: t else (k0, v0) :: assocSet t k v

/-- Models `Parser.isAtEnd` (`json.go`): the remaining token list is empty or its
current token is the end-of-input token. -/
def atEnd (ts : List Token) : Bool :=
  match ts with
  | [] => true
  | t :: _ => t.type = TokenType.eof

/-- Models `Parser.advance` (`json.go`). -/
def advance (ts : List Token) : List Token :=
  if atEnd ts then ts else ts.tail

/-- Models `Parser.check` (`json.go`). -/
def check (ts : List Token) (tt : TokenType) : Bool :=
  match ts with
  | [] => tt = TokenType.eof
  | t :: _ => if t.type = TokenType.eof then tt = TokenType.eof else t.type = tt

/-- Models `Parser.peek().Value` (`json.go`); only used under a successful
`check`, where the token list is non-empty. -/
def peekValue (ts : List Token) : String :=
  match ts with
  | [] => ""
  | t :: _ => t.value

mutual

/-- Models `Parser.parseValue` (`json.go`).  Returns the parse result together
with the remaining tokens (Go keeps the position in `p.current`, so a
failing parse still leaves the consumed position observable to the caller).
The fuel argument only serves termination; entry points pass fuel larger
than any possible recursion depth. -/
def parseValueF : Nat → List Token → Except String JValue × List Token
  | 0, ts => (Except.error "out of fuel", ts)
  | fuel + 1, ts =>
    if atEnd ts then (Except.error "unexpected end of JSON", ts)
    else
      match ts with
      | [] => (Except.error "unexpected end of JSON", ts)
      | tok :: _ =>
        match tok.type with
        | TokenType.leftBrace => parseObjectF fuel ts
        | TokenType.leftBracket => parseArrayF fuel ts
        | TokenType.string => (Except.ok (JValue.str tok.value), advance ts)
        | TokenType.number =>
          let rest := advance ts
          match parseGoInt64 tok.value with
          | some i => (Except.ok (JValue.int i), rest)
          | none =>
            if goFloatOk tok.value then (Except.ok (JValue.float tok.value), rest)
            else (Except.error ("invalid number: " ++ tok.value), rest)
        | TokenType.true_ => (Except.ok (JValue.bool true), advance ts)
        | TokenType.false_ => (Except.ok (JValue.bool false), advance ts)
        | TokenType.null => (Except.ok JValue.null, advance ts)
        | TokenType.eof => (Except.error "unexpected end of JSON", ts)
        | _ => (Except.error ("unexpected token: " ++ tok.value), advance ts)

/-- Models `Parser.parseObject` (`json.go`): consume the left brace, handle the
empty object, then run the key/value loop. -/
def parseObjectF : Nat → List Token → Except String JValue × List Token
  | 0, ts => (Except.error "out of fuel", ts)
  | fuel + 1, ts0 =>
    let ts := advance ts0
    if check ts TokenType.rightBrace then (Except.ok (JValue.obj []), advance ts)
    else parseObjectLoop fuel [] ts

/-- The `for` loop of `Parser.parseObject` (`json.go`), carrying the object
built so far.  Every branch that reaches the end of input returns the
object successfully, injecting `null` for a key whose value was never
reached. -/
def parseObjectLoop : Nat → List (String × JValue) → List Token →
    Except String JValue × List Token
  | 0, _, ts => (Except.error "out of fuel", ts)
  | fuel + 1, obj, ts =>
    if atEnd ts then (Except.ok (JValue.obj obj), ts)
    else if !check ts TokenType.string then
      if check ts TokenType.eof then (Except.ok (JValue.obj obj), ts)
      else (Except.error "expected string key in object", ts)
    else
      let key := peekValue ts
      let ts1 := advance ts
      if !check ts1 TokenType.colon then
        if check ts1 TokenType.eof then
          (Except.ok (JValue.obj (assocSet obj key JValue.null)), ts1)
        else (Except.error "expected colon after key in object", ts1)
      else
        let ts2 := advance ts1
        if check ts2 TokenType.eof then
          (Except.ok (JValue.obj (assocSet obj key JValue.null)), ts2)
        else
          match parseValueF fuel ts2 with
          | (Except.error e, ts3) =>
            if check ts3 TokenType.eof then
              (Except.ok (JValue.obj (assocSet obj key JValue.null)), ts3)
            else (Except.error e, ts3)
          | (Except.ok v, ts3) =>
            let obj1 := assocSet obj key v
            if !check ts3 TokenType.comma && !check ts3 TokenType.rightBrace then
              if check ts3 TokenType.eof then (Except.ok (JValue.obj obj1), ts3)
              else (Except.error "expected comma or right brace after object value", ts3)
            else if check ts3 TokenType.rightBrace then
              (Except.ok (JValue.obj obj1), advance ts3)
            else
              let ts4 := advance ts3
              if check ts4 TokenType.eof then (Except.ok (JValue.obj obj1), ts4)
              else parseObjectLoop fuel obj1 ts4

/-- Models `Parser.parseArray` (`json.go`). -/
def parseArrayF : Nat → List Token → Except String JValue × List Token
  | 0, ts => (Except.error "out of fuel", ts)
  | fuel + 1, ts0 =>
    let ts := advance ts0
    if check ts TokenType.rightBracket then (Except.ok (JValue.arr []), advance ts)
    else parseArrayLoop fuel [] ts

/-- The `for` loop of `Parser.parseArray` (`json.go`), carrying the array
built so far. -/
def parseArrayLoop : Nat → List JValue → List Token →
    Except String JValue × List Token
  | 0, _, ts => (Except.error "out of fuel", ts)
  | fuel + 1, arr, ts =>
    if atEnd ts then (Except.ok (JValue.arr arr), ts)
    else
      match parseValueF fuel ts with
      | (Except.error e, ts1) =>
        if check ts1 TokenType.eof then (Except.ok (JValue.arr arr), ts1)
        else (Except.error e, ts1)
      | (Except.ok v, ts1) =>
        let arr1 := arr ++ [v]
        if !check ts1 TokenType.comma && !check ts1 TokenType.rightBracket then
          if check ts1 TokenType.eof then (Except.ok (JValue.arr arr1), ts1)
          else (Except.error "expected comma or right bracket after array value", ts1)
        else if check ts1 TokenType.rightBracket then
          (Except.ok (JValue.arr arr1), advance ts1)
        else
          let ts2 := advance ts1
          if check ts2 TokenType.eof then (Except.ok (JValue.arr arr1), ts2)
          else parseArrayLoop fuel arr1 ts2

end

/-- Models `Parser.Parse` (`json.go`): error on an empty token slice, otherwise
parse one value.  The fuel `4 * length + 4` dominates the recursion depth
(each fuel-consuming call either consumes a token or is one of at most
three intermediate calls per consumed token). -/
def Parse (ts : List Token) : Except String JValue :=
  if ts.length = 0 then Except.error "no tokens to parse"
  else (parseValueF (4 * ts.length + 4) ts).1

/-- Models `ParsePartialJSON` (`json.go`). -/
def ParsePartialJSON (input : String) : Except String JValue :=
  Parse (tokenize input)

/-- Models `ParsePartialJSONObject` (`json.go`): requires the parsed value to be
an object; the entries list models the returned `map[string]any`. -/
def ParsePartialJSONObject (input : String) :
    Except String (List (String × JValue)) :=
  match ParsePartialJSON input with
  | Except.error e => Except.error e
  | Except.ok (JValue.obj entries) => Except.ok entries
  | Except.ok _ => Except.error "input is not a JSON object"

/-! The incremental decoder (`stream.go`).

Go's reference semantics are made explicit: every container created by the
decoder (a nested `map[string]any` or a `*[]interface{}` slice pointer)
is a heap cell identified by a `Nat` id.  The root output map owns id 0.
The stacks are kept top-first (Go appends the top at the end of a slice).
-/

/-- A value as stored inside the decoder's containers: Go `interface{}`
holding either an immediate value, a nested `map[string]any` (reference
type), or a `*[]interface{}` pointer.  Floats are represented by the
literal handed to `strconv.ParseFloat`, as in `JValue`. -/
inductive SVal where
  | null : SVal
  | bool (b : Bool) : SVal
  | int (n : Int) : SVal
  | float (lit : String) : SVal
  | str (s : String) : SVal
  | mapRef (id : Nat) : SVal
  | arrRef (id : Nat) : SVal
deriving DecidableEq

/-- One frame of `sp.stack`.  The Go stack holds the root `*map[string]any`,
nested `map[string]any` values and `*[]interface{}` pointers; `addValue`
and the comma handler treat the first two identically, so both are
modelled as `mapC` (the root is `mapC 0`, distinguishable by stack
position alone, which is all the Go code does). -/
inductive Container where
  | mapC (id : Nat) : Container
  | arrC (id : Nat) : Container
deriving DecidableEq

/-- Lookup of a heap cell by id. -/
def lookupH {α : Type} : List (Nat × α) → Nat → Option α
  | [], _ => none
  | (i, x) :: t, id => if i = id then some x else lookupH t id

/-- In-place mutation of the heap cell `id` (replaces the first binding;
no-op when the id is unallocated, which never happens on reachable
states — Go would be writing through a pointer it never created). -/
def setH {α : Type} : List (Nat × α) → Nat → α → List (Nat × α)
  | [], _, _ => []
  | (i, y) :: t, id, x =>
    if i = id then (i, x) :: t else (i, y) :: setH t id x

/-- Models the Go map assignment through a reference, on the heap map cell `id`. -/
def heapMapWrite (h : List (Nat × List (String × SVal))) (id : Nat)
    (k : String) (v : SVal) : List (Nat × List (String × SVal)) :=
  match lookupH h id with
  | none => h
  | some es => setH h id (assocSet es k v)

/-- Models appending through the slice pointer, on the heap array cell `id`. -/
def heapArrAppend (h : List (Nat × List SVal)) (id : Nat) (v : SVal) :
    List (Nat × List SVal) :=
  match lookupH h id with
  | none => h
  | some l => setH h id (l ++ [v])

/-- The mutable state of `StreamingParser` (`stream.go`).  `heapM`/`heapA`
model the Go heap of map and slice objects; `nextId` is the allocator.
The `paths` field of the Go struct is never read or written by any method
and is omitted; the `debug` flag only controls logging and is omitted. -/
structure SPState where
  heapM : List (Nat × List (String × SVal))
  heapA : List (Nat × List SVal)
  stack : List Container
  keys : List String
  buffer : String
  isEscaping : Bool
  inString : Bool
  expectingKey : Bool
  expectColon : Bool
  lastChar : String
  nextId : Nat
deriving DecidableEq

/-- Models `StreamingParser.parseNumber` (`stream.go`): integer first, float on
failure, mirroring the Go `strconv` calls. -/
def parseNumberS (buf : String) : Option SVal :=
  match parseGoInt64 buf with
  | some i => some (SVal.int i)
  | none => if goFloatOk buf then some (SVal.float buf) else none

/-- Models `StreamingParser.addValue` (`stream.go`): store a value in the current
container.  For a map the value goes under the most recent pending key
(kept until the map closes); for an array the value is appended through
the array's pointer.  (The Go `case []interface{}` branch, which re-links
a by-value slice into its parent, is unreachable: the stack only ever
holds the root map pointer, nested maps, and `*[]interface{}` pointers.) -/
def addValue (st : SPState) (v : SVal) : SPState :=
  match st.stack with
  | [] => st
  | Container.mapC id :: _ =>
    match st.keys with
    | [] => st
    | k :: _ => { st with heapM := heapMapWrite st.heapM id k v }
  | Container.arrC id :: _ =>
    { st with heapA := heapArrAppend st.heapA id v }

/-- The block at the top of `StreamingParser.ProcessChar` (`stream.go`):
when a structural character arrives with a non-empty token buffer, try to
finalize the buffer as a number and commit it.  Note the Go code does not
test `inString` here. -/
def finalizeNumber (st : SPState) (c : Char) : SPState :=
  if (c = ',' ∨ c = '}' ∨ c = ']') ∧ st.buffer ≠ "" then
    match parseNumberS st.buffer with
    | some v => { addValue st v with buffer := "" }
    | none => st
  else st

/-- The `sp.inString` block of `ProcessChar` (`stream.go`): escape
continuation, escape start, string close (as key or as value), or a
regular character appended to the buffer. -/
def stringModeStep (st : SPState) (c : Char) : SPState × Option String :=
  if st.isEscaping then
    ({ st with buffer := st.buffer.push c, isEscaping := false,
               lastChar := c.toString }, none)
  else if c = '\\' then
    ({ st with isEscaping := true, lastChar := c.toString }, none)
  else if c = '"' then
    if st.expectingKey then
      ({ st with inString := false, keys := st.buffer :: st.keys,
                 expectingKey := false, expectColon := true,
                 buffer := "", lastChar := c.toString }, none)
    else
      ({ addValue { st with inString := false } (SVal.str st.buffer) with
           buffer := "", lastChar := c.toString }, none)
  else
    ({ st with buffer := st.buffer.push c, lastChar := c.toString }, none)

/-- The whitespace case of the `ProcessChar` switch (`stream.go`). -/
def wsStep (st : SPState) (c : Char) : SPState × Option String :=
  ({ st with lastChar := c.toString }, none)

/-- The left-brace case of `ProcessChar` (`stream.go`): the root object is
absorbed; a nested brace allocates a new map, commits it into the current
container, and pushes it. -/
def openBraceStep (st : SPState) (c : Char) : SPState × Option String :=
  if st.stack.length = 1 ∧ st.keys = [] then
    ({ st with expectingKey := true, lastChar := c.toString }, none)
  else
    let newId := st.nextId
    let st1 := { st with heapM := (newId, []) :: st.heapM, nextId := newId + 1 }
    let st2 := addValue st1 (SVal.mapRef newId)
    ({ st2 with stack := Container.mapC newId :: st2.stack,
                expectingKey := true, lastChar := c.toString }, none)

/-- The right-brace and right-bracket cases of `ProcessChar` (`stream.go`),
which are textually identical: pop the container (and the pending key)
when more than the root frame is on the stack. -/
def closeStep (st : SPState) (c : Char) : SPState × Option String :=
  let st1 := if 1 < st.stack.length then
      { st with stack := st.stack.tail, keys := st.keys.tail }
    else st
  ({ st1 with expectingKey := false, expectColon := false,
              lastChar := c.toString }, none)

/-- The left-bracket case of `ProcessChar` (`stream.go`): allocate a new
array, commit its pointer into the current container, and push it. -/
def openBracketStep (st : SPState) (c : Char) : SPState × Option String :=
  let newId := st.nextId
  let st1 := { st with heapA := (newId, []) :: st.heapA, nextId := newId + 1 }
  let st2 := addValue st1 (SVal.arrRef newId)
  ({ st2 with stack := Container.arrC newId :: st2.stack,
              expectingKey := false, lastChar := c.toString }, none)

/-- The opening-quote case of `ProcessChar` (`stream.go`). -/
def beginStringStep (st : SPState) (c : Char) : SPState × Option String :=
  ({ st with inString := true, buffer := "", lastChar := c.toString }, none)

/-- The colon case of `ProcessChar` (`stream.go`). -/
def colonStep (st : SPState) (c : Char) : SPState × Option String :=
  if !st.expectColon then (st, some "unexpected colon")
  else ({ st with expectColon := false, lastChar := c.toString }, none)

/-- The comma case of `ProcessChar` (`stream.go`): after a comma a key is
expected exactly when the current container is a map. -/
def commaStep (st : SPState) (c : Char) : SPState × Option String :=
  match st.stack with
  | [] => ({ st with lastChar := c.toString }, none)
  | Container.mapC _ :: _ =>
    ({ st with expectingKey := true, lastChar := c.toString }, none)
  | Container.arrC _ :: _ =>
    ({ st with expectingKey := false, lastChar := c.toString }, none)

/-- The `case "t"` arm of `ProcessChar` (`stream.go`). -/
def tStep (st : SPState) (c : Char) : SPState × Option String :=
  if st.buffer ≠ "" then (st, some "unexpected t")
  else ({ st with buffer := "t", lastChar := c.toString }, none)

/-- The `case "r"` arm of `ProcessChar` (`stream.go`). -/
def rStep (st : SPState) (c : Char) : SPState × Option String :=
  if st.buffer = "t" then ({ st with buffer := "tr", lastChar := c.toString }, none)
  else (st, some "unexpected r")

/-- The `case "u"` arm of `ProcessChar` (`stream.go`). -/
def uStep (st : SPState) (c : Char) : SPState × Option String :=
  if st.buffer = "tr" then ({ st with buffer := "tru", lastChar := c.toString }, none)
  else if st.buffer = "n" then ({ st with buffer := "nu", lastChar := c.toString }, none)
  else (st, some "unexpected u")

/-- The `case "e"` arm of `ProcessChar` (`stream.go`): completes `true` or
`false`. -/
def eStep (st : SPState) (c : Char) : SPState × Option String :=
  if st.buffer = "tru" then
    ({ addValue st (SVal.bool true) with buffer := "", lastChar := c.toString }, none)
  else if st.buffer = "fals" then
    ({ addValue st (SVal.bool false) with buffer := "", lastChar := c.toString }, none)
  else (st, some "unexpected e")

/-- The `case "f"` arm of `ProcessChar` (`stream.go`). -/
def fStep (st : SPState) (c : Char) : SPState × Option String :=
  if st.buffer ≠ "" then (st, some "unexpected f")
  else ({ st with buffer := "f", lastChar := c.toString }, none)

/-- The `case "a"` arm of `ProcessChar` (`stream.go`). -/
def aStep (st : SPState) (c : Char) : SPState × Option String :=
  if st.buffer = "f" then ({ st with buffer := "fa", lastChar := c.toString }, none)
  else (st, some "unexpected a")

/-- The `case "l"` arm of `ProcessChar` (`stream.go`): extends `fa`/`nu`
and completes `null`. -/
def lStep (st : SPState) (c : Char) : SPState × Option String :=
  if st.buffer = "fa" then ({ st with buffer := "fal", lastChar := c.toString }, none)
  else if st.buffer = "nu" then ({ st with buffer := "nul", lastChar := c.toString }, none)
  else if st.buffer = "nul" then
    ({ addValue st SVal.null with buffer := "", lastChar := c.toString }, none)
  else (st, some "unexpected l")

/-- The `case "s"` arm of `ProcessChar` (`stream.go`). -/
def sStep (st : SPState) (c : Char) : SPState × Option String :=
  if st.buffer = "fal" then ({ st with buffer := "fals", lastChar := c.toString }, none)
  else (st, some "unexpected s")

/-- The `case "n"` arm of `ProcessChar` (`stream.go`). -/
def nStep (st : SPState) (c : Char) : SPState × Option String :=
  if st.buffer ≠ "" then (st, some "unexpected n")
  else ({ st with buffer := "n", lastChar := c.toString }, none)

/-- The literal-prefix cases `t r u e f a l s n` of `ProcessChar`
(`stream.go`), dispatched on the character.  Completing `true`, `false`
or `null` commits the value and clears the buffer; a character that does
not extend a legal prefix errors. -/
def literalStep (st : SPState) (c : Char) : SPState × Option String :=
  if c = 't' then tStep st c
  else if c = 'r' then rStep st c
  else if c = 'u' then uStep st c
  else if c = 'e' then eStep st c
  else if c = 'f' then fStep st c
  else if c = 'a' then aStep st c
  else if c = 'l' then lStep st c
  else if c = 's' then sStep st c
  else nStep st c

/-- The default case of the `ProcessChar` switch (`stream.go`): digits and
number punctuation accumulate into the buffer (the `e`/`E` disjuncts are
kept from the source, although `e` can never reach this branch because
the literal case claims it first); anything else is an error. -/
def defaultStep (st : SPState) (c : Char) : SPState × Option String :=
  if ('0' ≤ c ∧ c ≤ '9') ∨ c = '-' ∨ c = '.' ∨ c = '+' ∨ c = 'e' ∨ c = 'E' then
    ({ st with buffer := st.buffer.push c, lastChar := c.toString }, none)
  else (st, some ("unexpected character: " ++ c.toString))

/-- All of `StreamingParser.ProcessChar` (`stream.go`) after the number
finalization block: the in-string mode, then the switch on the character
(Go's switch on disjoint cases, rendered as an if-chain).  Error messages
follow the Go ones with the quoted character spliced in (apostrophes
elided). -/
def processCharRest (st : SPState) (c : Char) : SPState × Option String :=
  if st.inString then stringModeStep st c
  else if c = ' ' ∨ c = '\t' ∨ c = '\r' ∨ c = '\n' then wsStep st c
  else if c = '{' then openBraceStep st c
  else if c = '}' then closeStep st c
  else if c = '[' then openBracketStep st c
  else if c = ']' then closeStep st c
  else if c = '"' then beginStringStep st c
  else if c = ':' then colonStep st c
  else if c = ',' then commaStep st c
  else if c = 't' ∨ c = 'r' ∨ c = 'u' ∨ c = 'e' ∨ c = 'f' ∨ c = 'a' ∨
          c = 'l' ∨ c = 's' ∨ c = 'n' then literalStep st c
  else defaultStep st c

/-- Models `StreamingParser.ProcessChar` (`stream.go`): the number finalization
block followed by the state machine proper.  Returns the new state
together with `some` error message on failure (Go mutates in place and
returns the error; as proved below, error paths leave the state intact). -/
def processChar (st : SPState) (c : Char) : SPState × Option String :=
  processCharRest (finalizeNumber st c) c

/-- Models `StreamingParser.ProcessString` (`stream.go`): process characters in
order, stopping at (and returning) the first error. -/
def processString : SPState → List Char → SPState × Option String
  | st, [] => (st, none)
  | st, c :: cs =>
    match processChar st c with
    | (st1, none) => processString st1 cs
    | (st1, some e) => (st1, some e)

/-- Repeated `ProcessChar` calls whose errors the caller ignores
(processing continues regardless of each call's result). -/
def processAll (st : SPState) (cs : List Char) : SPState :=
  cs.foldl (fun s c => (processChar s c).1) st

/-- Models `NewStreamingParser` (`stream.go`): fresh state bound to the (cleared)
caller-owned output map, which owns heap id 0. -/
def initState : SPState :=
  { heapM := [(0, [])], heapA := [], stack := [Container.mapC 0], keys := [],
    buffer := "", isEscaping := false, inString := false, expectingKey := true,
    expectColon := false, lastChar := "", nextId := 1 }

/-- Models `StreamingParser.Reset` (`stream.go`): clear the entries of the owned
root map (same map identity, id 0) and reinitialize stacks, buffer and
flags.  Containers created before the reset stay on the heap but become
unreachable, exactly like garbage in Go.  `nextId` restarts at 1: heap ids
model pointer identity, and a Go allocation after the reset may reuse the
address of any dead object; freshly allocated cells are consed at the
front of the heap list and therefore shadow any stale cell with the same
id, so id reuse is unobservable, as in Go. -/
def resetState (st : SPState) : SPState :=
  { heapM := setH st.heapM 0 [], heapA := st.heapA,
    stack := [Container.mapC 0], keys := [], buffer := "",
    isEscaping := false, inString := false, expectingKey := true,
    expectColon := false, lastChar := "", nextId := 1 }

/-- Read a stored value back as a `JValue`, dereferencing container ids
through the heap.  References always point to later-allocated cells, so
fuel `nextId + 1` fully resolves every reachable state's output. -/
def resolveV (hM : List (Nat × List (String × SVal)))
    (hA : List (Nat × List SVal)) : Nat → SVal → JValue
  | _, SVal.null => JValue.null
  | _, SVal.bool b => JValue.bool b
  | _, SVal.int n => JValue.int n
  | _, SVal.float s => JValue.float s
  | _, SVal.str s => JValue.str s
  | 0, SVal.mapRef _ => JValue.null
  | fuel + 1, SVal.mapRef id =>
    JValue.obj (((lookupH hM id).getD []).map
      (fun kv => (kv.1, resolveV hM hA fuel kv.2)))
  | 0, SVal.arrRef _ => JValue.null
  | fuel + 1, SVal.arrRef id =>
    JValue.arr (((lookupH hA id).getD []).map (fun v => resolveV hM hA fuel v))

/-- The decoder's observable output: `GetCurrentOutput` (`stream.go`) with
every nested container dereferenced. -/
def resolveOutput (st : SPState) : JValue :=
  resolveV st.heapM st.heapA (st.nextId + 1) (SVal.mapRef 0)

/-- Run the decoder character by character on a whole string from a fresh
parser, returning the resolved output map. -/
def streamResult (s : String) : JValue :=
  resolveOutput (processString initState s.data).1

/-- The first error (if any) produced while feeding `s` to a fresh
decoder. -/
def streamError (s : String) : Option String :=
  (processString initState s.data).2

/-- The object loop can only fail while more input remains: whenever it
returns an error (other than the artificial fuel error), the token
position it stopped at is not end-of-input — i.e. exhaustion of input
inside the object production always returns the object successfully. -/
theorem parseObjectLoop_error_not_eof (fuel : Nat) : ∀ (obj : List (String × JValue))
    (ts : List Token) (e : String),
    (parseObjectLoop fuel obj ts).1 = Except.error e → e ≠ "out of fuel" →
    check (parseObjectLoop fuel obj ts).2 TokenType.eof = false := by
  induction fuel with
  | zero =>
    intro obj ts e h hne
    exact absurd (Except.error.inj h).symm hne
  | succ n ih =>
    intro obj ts e h hne
    unfold parseObjectLoop at h ⊢
    dsimp only at h ⊢
    by_cases h1 : atEnd ts = true
    · rw [if_pos h1] at h
      exact absurd h (by simp)
    rw [if_neg h1] at h ⊢
    by_cases h2 : (!check ts TokenType.string) = true
    · rw [if_pos h2] at h ⊢
      by_cases h3 : check ts TokenType.eof = true
      · rw [if_pos h3] at h
        exact absurd h (by simp)
      · rw [if_neg h3] at h ⊢
        simpa using h3
    rw [if_neg h2] at h ⊢
    by_cases h4 : (!check (advance ts) TokenType.colon) = true
    · rw [if_pos h4] at h ⊢
      by_cases h5 : check (advance ts) TokenType.eof = true
      · rw [if_pos h5] at h
        exact absurd h (by simp)
      · rw [if_neg h5] at h ⊢
        simpa using h5
    rw [if_neg h4] at h ⊢
    by_cases h6 : check (advance (advance ts)) TokenType.eof = true
    · rw [if_pos h6] at h
      exact absurd h (by simp)
    rw [if_neg h6] at h ⊢
    rcases hv : parseValueF n (advance (advance ts)) with ⟨res, ts3⟩
    rw [hv] at h
    rcases res with ev | vv
    · dsimp only at h ⊢
      by_cases h7 : check ts3 TokenType.eof = true
      · rw [if_pos h7] at h
        exact absurd h (by simp)
      · rw [if_neg h7] at h ⊢
        simpa using h7
    · dsimp only at h ⊢
      by_cases h8 : (!check ts3 TokenType.comma && !check ts3 TokenType.rightBrace) = true
      · rw [if_pos h8] at h ⊢
        by_cases h9 : check ts3 TokenType.eof = true
        · rw [if_pos h9] at h
          exact absurd h (by simp)
        · rw [if_neg h9] at h ⊢
          simpa using h9
      rw [if_neg h8] at h ⊢
      by_cases h10 : check ts3 TokenType.rightBrace = true
      · rw [if_pos h10] at h
        exact absurd h (by simp)
      rw [if_neg h10] at h ⊢
      by_cases h11 : check (advance ts3) TokenType.eof = true
      · rw [if_pos h11] at h
        exact absurd h (by simp)
      rw [if_neg h11] at h ⊢
      exact ih _ _ e h hne

/-! Claims of the specification, settled below. -/

/-- Claim C1.  The two pipelines are claimed to produce equal mappings on
every well-formed complete JSON object (escape sequences aside).  This
fails: the number-finalization block at the top of `ProcessChar` is not
guarded by `inString`, so on the well-formed, escape-free object
input with key k and string value "1," the incremental decoder first
commits the integer 1 for the key and then overwrites it with the string
",", while the batch parser returns the string "1,".  Both runs succeed,
yet the mappings differ. -/
theorem c1_pipelines_diverge :
    ParsePartialJSONObject "\x7b\"k\":\"1,\"\x7d" =
      Except.ok [("k", JValue.str "1,")] ∧
    streamError "\x7b\"k\":\"1,\"\x7d" = none ∧
    streamResult "\x7b\"k\":\"1,\"\x7d" = JValue.obj [("k", JValue.str ",")] ∧
    JValue.obj [("k", JValue.str "1,")] ≠ JValue.obj [("k", JValue.str ",")] :=
  ⟨rfl, rfl, rfl, by simp⟩

/-- Claim C2: in the tolerant batch parser, exhausting the input inside an
object returns the committed keys and values with a null injected for a
key whose value was never reached.  First conjunct: the general principle
(the object loop errors only at a non-end-of-input position, so input
exhaustion always returns the object successfully); then the three
specified example inputs, evaluated. -/
theorem c2_object_truncation_examples :
    (∀ (fuel : Nat) (obj : List (String × JValue)) (ts : List Token) (e : String),
      (parseObjectLoop fuel obj ts).1 = Except.error e → e ≠ "out of fuel" →
      check (parseObjectLoop fuel obj ts).2 TokenType.eof = false) ∧
    ParsePartialJSONObject "\x7b\"key\": 1234, \"key2\":" =
      Except.ok [("key", JValue.int 1234), ("key2", JValue.null)] ∧
    ParsePartialJSONObject "\x7b\"key1\": true, \"key2" =
      Except.ok [("key1", JValue.bool true), ("key2", JValue.null)] ∧
    ParsePartialJSONObject "\x7b\"key1\": \"value\", \"key2\": false," =
      Except.ok [("key1", JValue.str "value"), ("key2", JValue.bool false)] :=
  ⟨parseObjectLoop_error_not_eof, rfl, rfl, rfl⟩

/-- Claim C3 counterexample.  The claim says a truncated trailing string is
discarded by the lexer with no token emitted; in fact `scanString` emits
the string token with the partially scanned text even when no closing
quote exists (the tests rely on this: the truncated key "key2" appears in
the parsed object). -/
theorem c3_counterexample :
    tokenize "\x7b\"key1\": true, \"key2" =
      [Token.mk TokenType.leftBrace "\x7b", Token.mk TokenType.string "key1",
       Token.mk TokenType.colon ":", Token.mk TokenType.true_ "true",
       Token.mk TokenType.comma ",", Token.mk TokenType.string "key2",
       Token.mk TokenType.eof ""] ∧
    Token.mk TokenType.string "key2" ∈ tokenize "\x7b\"key1\": true, \"key2" :=
  ⟨rfl, by decide⟩

/-- Claim C10 counterexample.  Empty input does fail, but with the
"unexpected end of JSON" error from `parseValue`: `Tokenize` always
appends an EOF token, so the "no tokens to parse" branch of `Parse` is
unreachable. -/
theorem c10_counterexample :
    ParsePartialJSONObject "" = Except.error "unexpected end of JSON" ∧
    "unexpected end of JSON" ≠ "no tokens to parse" :=
  ⟨rfl, by decide⟩

/-- Claim C10 as amended: the object-only entry point fails with the
"input is not a JSON object" error when the top-level value is not a
mapping, and fails on empty input with the "unexpected end of JSON"
error. -/
theorem c10_amended :
    ParsePartialJSONObject "[1, 2, 3]" = Except.error "input is not a JSON object" ∧
    ParsePartialJSONObject "" = Except.error "unexpected end of JSON" :=
  ⟨rfl, rfl⟩

/-- Claim C4 counterexample.  The claim says the value in an object with
key n and value 1e3 decodes to a float in each pipeline; in the
incremental decoder the character e is handled by the literal cases of
the switch (for true/false) before the default numeric branch can see
it, so processing stops with an error at the e of 1e3. -/
theorem c4_counterexample :
    streamError "\x7b\"n\": 1e3\x7d" = some "unexpected e" :=
  rfl

/-- Claim C4 as amended: numbers are decoded integer-first in both
pipelines (30 is an integer, 3.14 a float); 1e3 parses to a float in the
batch pipeline, while in the incremental decoder only an upper-case
exponent 1E3 survives (lower-case e is claimed by the literal prefix
cases and errors there, see the counterexample). -/
theorem c4_amended :
    ParsePartialJSONObject "\x7b\"n\": 30\x7d" =
      Except.ok [("n", JValue.int 30)] ∧
    ParsePartialJSONObject "\x7b\"n\": 3.14\x7d" =
      Except.ok [("n", JValue.float "3.14")] ∧
    ParsePartialJSONObject "\x7b\"n\": 1e3\x7d" =
      Except.ok [("n", JValue.float "1e3")] ∧
    streamResult "\x7b\"n\": 30\x7d" = JValue.obj [("n", JValue.int 30)] ∧
    streamResult "\x7b\"n\": 3.14\x7d" = JValue.obj [("n", JValue.float "3.14")] ∧
    streamResult "\x7b\"n\": 1E3\x7d" = JValue.obj [("n", JValue.float "1E3")] :=
  ⟨rfl, rfl, rfl, rfl, rfl, rfl⟩

/-- Claim C5 counterexample.  The claim says that after a backslash
followed by a character c the committed string contains the two
characters backslash then c.  In the code the backslash itself is never
buffered (`isEscaping` is set and the call returns), and the escaped
character is appended alone: the object with string value backslash-n
stores just "n", not backslash-n (and not a newline).  The repository's
own escape test expects exactly this. -/
theorem c5_counterexample :
    streamResult "\x7b\"k\":\"\\n\"\x7d" = JValue.obj [("k", JValue.str "n")] ∧
    JValue.obj [("k", JValue.str "n")] ≠ JValue.obj [("k", JValue.str "\\n")] :=
  ⟨rfl, by simp⟩

/-- String mode never produces an error. -/
theorem stringModeStep_no_error (st : SPState) (c : Char) :
    (stringModeStep st c).2 = none := by
  unfold stringModeStep
  repeat' split
  all_goals rfl

theorem wsStep_no_error (st : SPState) (c : Char) : (wsStep st c).2 = none := rfl

theorem openBraceStep_no_error (st : SPState) (c : Char) :
    (openBraceStep st c).2 = none := by
  unfold openBraceStep
  split
  all_goals rfl

theorem closeStep_no_error (st : SPState) (c : Char) : (closeStep st c).2 = none := rfl

theorem openBracketStep_no_error (st : SPState) (c : Char) :
    (openBracketStep st c).2 = none := rfl

theorem beginStringStep_no_error (st : SPState) (c : Char) :
    (beginStringStep st c).2 = none := rfl

theorem commaStep_no_error (st : SPState) (c : Char) : (commaStep st c).2 = none := by
  unfold commaStep
  split
  all_goals rfl

/-- A failing colon step returns the state unchanged. -/
theorem colonStep_error_eq (st : SPState) (c : Char)
    (h : ((colonStep st c).2).isSome = true) : (colonStep st c).1 = st := by
  unfold colonStep at h ⊢
  split_ifs at h ⊢
  · rfl
  · simp at h

theorem tStep_error_eq (st : SPState) (c : Char)
    (h : ((tStep st c).2).isSome = true) : (tStep st c).1 = st := by
  unfold tStep at h ⊢
  split_ifs at h ⊢
  · rfl
  · simp at h

theorem rStep_error_eq (st : SPState) (c : Char)
    (h : ((rStep st c).2).isSome = true) : (rStep st c).1 = st := by
  unfold rStep at h ⊢
  split_ifs at h ⊢
  · simp at h
  · rfl

theorem uStep_error_eq (st : SPState) (c : Char)
    (h : ((uStep st c).2).isSome = true) : (uStep st c).1 = st := by
  unfold uStep at h ⊢
  split_ifs at h ⊢
  all_goals first | rfl | simp at h

theorem eStep_error_eq (st : SPState) (c : Char)
    (h : ((eStep st c).2).isSome = true) : (eStep st c).1 = st := by
  unfold eStep at h ⊢
  split_ifs at h ⊢
  all_goals first | rfl | simp at h

theorem fStep_error_eq (st : SPState) (c : Char)
    (h : ((fStep st c).2).isSome = true) : (fStep st c).1 = st := by
  unfold fStep at h ⊢
  split_ifs at h ⊢
  all_goals first | rfl | simp at h

theorem aStep_error_eq (st : SPState) (c : Char)
    (h : ((aStep st c).2).isSome = true) : (aStep st c).1 = st := by
  unfold aStep at h ⊢
  split_ifs at h ⊢
  all_goals first | rfl | simp at h

theorem lStep_error_eq (st : SPState) (c : Char)
    (h : ((lStep st c).2).isSome = true) : (lStep st c).1 = st := by
  unfold lStep at h ⊢
  split_ifs at h ⊢
  all_goals first | rfl | simp at h

theorem sStep_error_eq (st : SPState) (c : Char)
    (h : ((sStep st c).2).isSome = true) : (sStep st c).1 = st := by
  unfold sStep at h ⊢
  split_ifs at h ⊢
  all_goals first | rfl | simp at h

theorem nStep_error_eq (st : SPState) (c : Char)
    (h : ((nStep st c).2).isSome = true) : (nStep st c).1 = st := by
  unfold nStep at h ⊢
  split_ifs at h ⊢
  all_goals first | rfl | simp at h

/-- A failing literal step returns the state unchanged. -/
theorem literalStep_error_eq (st : SPState) (c : Char)
    (h : ((literalStep st c).2).isSome = true) : (literalStep st c).1 = st := by
  unfold literalStep at h ⊢
  split_ifs at h ⊢
  · exact tStep_error_eq st c h
  · exact rStep_error_eq st c h
  · exact uStep_error_eq st c h
  · exact eStep_error_eq st c h
  · exact fStep_error_eq st c h
  · exact aStep_error_eq st c h
  · exact lStep_error_eq st c h
  · exact sStep_error_eq st c h
  · exact nStep_error_eq st c h

/-- A failing default step returns the state unchanged. -/
theorem defaultStep_error_eq (st : SPState) (c : Char)
    (h : ((defaultStep st c).2).isSome = true) : (defaultStep st c).1 = st := by
  unfold defaultStep at h ⊢
  split_ifs at h ⊢
  · simp at h
  · rfl

/-- If the post-finalization part of `ProcessChar` errors, it returns the
state it was given. -/
theorem processCharRest_error_eq (st : SPState) (c : Char)
    (h : ((processCharRest st c).2).isSome = true) :
    (processCharRest st c).1 = st := by
  unfold processCharRest at h ⊢
  split_ifs at h ⊢ with h1 h2 h3 h4 h5 h6 h7 h8 h9 h10
  · rw [stringModeStep_no_error] at h; simp at h
  · rw [wsStep_no_error] at h; simp at h
  · rw [openBraceStep_no_error] at h; simp at h
  · rw [closeStep_no_error] at h; simp at h
  · rw [openBracketStep_no_error] at h; simp at h
  · rw [closeStep_no_error] at h; simp at h
  · rw [beginStringStep_no_error] at h; simp at h
  · exact colonStep_error_eq st c h
  · rw [commaStep_no_error] at h; simp at h
  · exact literalStep_error_eq st c h
  · exact defaultStep_error_eq st c h

/-- Structural characters never produce an error in the post-finalization
part of `ProcessChar`. -/
theorem processCharRest_structural_no_error (st : SPState) (c : Char)
    (h : c = ',' ∨ c = '}' ∨ c = ']') : (processCharRest st c).2 = none := by
  rcases h with h | h | h <;> subst h <;> unfold processCharRest <;>
    split_ifs <;>
    first
      | exact stringModeStep_no_error _ _
      | exact wsStep_no_error _ _
      | exact openBraceStep_no_error _ _
      | exact closeStep_no_error _ _
      | exact openBracketStep_no_error _ _
      | exact beginStringStep_no_error _ _
      | exact commaStep_no_error _ _
      | simp_all

/-- When `c` is not a structural terminator, the number finalization block
leaves the state untouched. -/
theorem finalizeNumber_nonstructural (st : SPState) (c : Char)
    (h : ¬ (c = ',' ∨ c = '}' ∨ c = ']')) : finalizeNumber st c = st := by
  unfold finalizeNumber
  rw [if_neg]
  intro hc
  exact h hc.1

/-- Claim C6: whenever `ProcessChar` returns an error, the entire session
state — heap (and hence the output mapping's entries), container stack,
key stack, token buffer, and all flags — is exactly what it was at the
start of the call; the character is not absorbed. -/
theorem c6_error_preserves_state (st : SPState) (c : Char) (e : String)
    (h : (processChar st c).2 = some e) : (processChar st c).1 = st := by
  by_cases hs : c = ',' ∨ c = '}' ∨ c = ']'
  · exfalso
    have hn := processCharRest_structural_no_error (finalizeNumber st c) c hs
    rw [processChar, hn] at h
    exact Option.noConfusion h
  · have hf : finalizeNumber st c = st := finalizeNumber_nonstructural st c hs
    rw [processChar, hf] at h ⊢
    exact processCharRest_error_eq st c (by rw [h]; rfl)

/-- Witness for C6: a stray colon in the initial state errors and the
state is unchanged. -/
theorem c6_error_preserves_state_witness :
    (processChar initState ':').2 = some "unexpected colon" ∧
    (processChar initState ':').1 = initState :=
  ⟨rfl, c6_error_preserves_state initState ':' "unexpected colon" rfl⟩

/-- Committing a value never touches the container stack. -/
theorem addValue_stack (st : SPState) (v : SVal) : (addValue st v).stack = st.stack := by
  unfold addValue
  repeat' split
  all_goals rfl

/-- The number finalization block never touches the container stack. -/
theorem finalizeNumber_stack (st : SPState) (c : Char) :
    (finalizeNumber st c).stack = st.stack := by
  unfold finalizeNumber
  split
  · split
    · rw [addValue_stack]
    · rfl
  · rfl

/-- String mode never touches the container stack. -/
theorem stringModeStep_stack (st : SPState) (c : Char) :
    (stringModeStep st c).1.stack = st.stack := by
  unfold stringModeStep
  split_ifs
  all_goals first | rfl | (exact addValue_stack _ _)

theorem tStep_stack (st : SPState) (c : Char) : (tStep st c).1.stack = st.stack := by
  unfold tStep
  split_ifs
  all_goals rfl

theorem rStep_stack (st : SPState) (c : Char) : (rStep st c).1.stack = st.stack := by
  unfold rStep
  split_ifs
  all_goals rfl

theorem uStep_stack (st : SPState) (c : Char) : (uStep st c).1.stack = st.stack := by
  unfold uStep
  split_ifs
  all_goals rfl

theorem eStep_stack (st : SPState) (c : Char) : (eStep st c).1.stack = st.stack := by
  unfold eStep
  split_ifs
  all_goals first | rfl | (exact addValue_stack st _)

theorem fStep_stack (st : SPState) (c : Char) : (fStep st c).1.stack = st.stack := by
  unfold fStep
  split_ifs
  all_goals rfl

theorem aStep_stack (st : SPState) (c : Char) : (aStep st c).1.stack = st.stack := by
  unfold aStep
  split_ifs
  all_goals rfl

theorem lStep_stack (st : SPState) (c : Char) : (lStep st c).1.stack = st.stack := by
  unfold lStep
  split_ifs
  all_goals first | rfl | (exact addValue_stack st _)

theorem sStep_stack (st : SPState) (c : Char) : (sStep st c).1.stack = st.stack := by
  unfold sStep
  split_ifs
  all_goals rfl

theorem nStep_stack (st : SPState) (c : Char) : (nStep st c).1.stack = st.stack := by
  unfold nStep
  split_ifs
  all_goals rfl

/-- The literal cases never touch the container stack. -/
theorem literalStep_stack (st : SPState) (c : Char) :
    (literalStep st c).1.stack = st.stack := by
  unfold literalStep
  split_ifs
  · exact tStep_stack st c
  · exact rStep_stack st c
  · exact uStep_stack st c
  · exact eStep_stack st c
  · exact fStep_stack st c
  · exact aStep_stack st c
  · exact lStep_stack st c
  · exact sStep_stack st c
  · exact nStep_stack st c

/-- One `ProcessChar` step changes the stack only by leaving it alone,
pushing one container, or popping the top frame of a stack that has more
than the root frame. -/
theorem processCharRest_stack (st : SPState) (c : Char) :
    (processCharRest st c).1.stack = st.stack ∨
    (∃ x, (processCharRest st c).1.stack = x :: st.stack) ∨
    (1 < st.stack.length ∧ (processCharRest st c).1.stack = st.stack.tail) := by
  unfold processCharRest
  by_cases h1 : st.inString = true
  · rw [if_pos h1]
    exact Or.inl (stringModeStep_stack st c)
  rw [if_neg h1]
  by_cases h2 : c = ' ' ∨ c = '\t' ∨ c = '\r' ∨ c = '\n'
  · rw [if_pos h2]
    exact Or.inl rfl
  rw [if_neg h2]
  by_cases h3 : c = '{'
  · rw [if_pos h3]
    unfold openBraceStep
    split
    · exact Or.inl rfl
    · exact Or.inr (Or.inl ⟨Container.mapC st.nextId, by simp [addValue_stack]⟩)
  rw [if_neg h3]
  by_cases h4 : c = '}'
  · rw [if_pos h4]
    unfold closeStep
    split
    · exact Or.inr (Or.inr ⟨by assumption, rfl⟩)
    · exact Or.inl rfl
  rw [if_neg h4]
  by_cases h5 : c = '['
  · rw [if_pos h5]
    unfold openBracketStep
    exact Or.inr (Or.inl ⟨Container.arrC st.nextId, by simp [addValue_stack]⟩)
  rw [if_neg h5]
  by_cases h6 : c = ']'
  · rw [if_pos h6]
    unfold closeStep
    split
    · exact Or.inr (Or.inr ⟨by assumption, rfl⟩)
    · exact Or.inl rfl
  rw [if_neg h6]
  by_cases h7 : c = '"'
  · rw [if_pos h7]
    exact Or.inl rfl
  rw [if_neg h7]
  by_cases h8 : c = ':'
  · rw [if_pos h8]
    unfold colonStep
    split
    · exact Or.inl rfl
    · exact Or.inl rfl
  rw [if_neg h8]
  by_cases h9 : c = ','
  · rw [if_pos h9]
    unfold commaStep
    split
    all_goals exact Or.inl rfl
  rw [if_neg h9]
  by_cases h10 : c = 't' ∨ c = 'r' ∨ c = 'u' ∨ c = 'e' ∨ c = 'f' ∨ c = 'a' ∨
      c = 'l' ∨ c = 's' ∨ c = 'n'
  · rw [if_pos h10]
    exact Or.inl (literalStep_stack st c)
  rw [if_neg h10]
  unfold defaultStep
  split
  · exact Or.inl rfl
  · exact Or.inl rfl

/-- One `ProcessChar` call preserves "the bottom of the stack is the root
map", whatever the character and whatever the call's result. -/
theorem processChar_root_bottom (st : SPState) (c : Char)
    (h : ∃ pre, st.stack = pre ++ [Container.mapC 0]) :
    ∃ pre2, ((processChar st c).1).stack = pre2 ++ [Container.mapC 0] := by
  obtain ⟨pre, hp⟩ := h
  have hf : (finalizeNumber st c).stack = st.stack := finalizeNumber_stack st c
  rw [processChar]
  rcases processCharRest_stack (finalizeNumber st c) c with h1 | ⟨x, h1⟩ | ⟨hl, h1⟩
  · exact ⟨pre, by rw [h1, hf, hp]⟩
  · exact ⟨x :: pre, by rw [h1, hf, hp]; rfl⟩
  · rw [hf, hp] at hl h1
    cases pre with
    | nil => simp at hl
    | cons y ys => exact ⟨ys, by rw [h1]; simp⟩

/-- Claim C9: for every sequence of `ProcessChar` calls on a fresh
decoder — whatever each call's result — the container stack stays
non-empty and its bottom element is always the root mapping (heap id 0),
which is never replaced. -/
theorem c9_root_stack_invariant (cs : List Char) :
    (processAll initState cs).stack ≠ [] ∧
    (processAll initState cs).stack.getLast? = some (Container.mapC 0) := by
  have main : ∀ l st, (∃ pre, st.stack = pre ++ [Container.mapC 0]) →
      ∃ pre2, (processAll st l).stack = pre2 ++ [Container.mapC 0] := by
    intro l
    induction l with
    | nil => intro st h; exact h
    | cons c cs ih =>
      intro st h
      exact ih ((processChar st c).1) (processChar_root_bottom st c h)
  obtain ⟨pre, hp⟩ := main cs initState ⟨[], rfl⟩
  refine ⟨by rw [hp]; simp, by rw [hp]; simp⟩

/-- Association-list lookup, the read counterpart of `assocSet`. -/
def lookupAssoc {α : Type} : List (String × α) → String → Option α
  | [], _ => none
  | (k0, v) :: t, k => if k0 = k then some v else lookupAssoc t k

/-- The value stored under key `k` of the heap map cell `id`. -/
def objEntry (h : List (Nat × List (String × SVal))) (id : Nat) (k : String) :
    Option SVal :=
  match lookupH h id with
  | none => none
  | some es => lookupAssoc es k

/-- Updating a heap cell in place leaves it readable at its id. -/
theorem lookupH_setH_self {α : Type} (h : List (Nat × α)) (id : Nat) (x y : α)
    (hl : lookupH h id = some y) : lookupH (setH h id x) id = some x := by
  induction h with
  | nil => simp [lookupH] at hl
  | cons p t ih =>
    obtain ⟨i, y0⟩ := p
    by_cases hp : i = id
    · simp [lookupH, setH, hp]
    · simp [lookupH, setH, hp] at hl ⊢
      exact ih hl

/-- Appending through an array pointer updates exactly that cell. -/
theorem lookupH_heapArrAppend_self (h : List (Nat × List SVal)) (id : Nat)
    (v : SVal) (l : List SVal) (hl : lookupH h id = some l) :
    lookupH (heapArrAppend h id v) id = some (l ++ [v]) := by
  unfold heapArrAppend
  rw [hl]
  exact lookupH_setH_self h id (l ++ [v]) l hl

/-- Claim C7: appending values to a sequence nested inside a mapping (the
current container is the array, its parent the mapping holding it under
key `k`) keeps the mapping's stored entry denoting that same array, and
after any number of appends the array cell holds every appended element —
no stale identity is left behind, however many appends (and hence Go
slice reallocations) occur, because the mapping stores the array's
pointer. -/
theorem c7_array_relink (vs : List SVal) : ∀ (st : SPState) (arrId pid : Nat)
    (k : String) (rest : List Container) (l : List SVal),
    st.stack = Container.arrC arrId :: Container.mapC pid :: rest →
    objEntry st.heapM pid k = some (SVal.arrRef arrId) →
    lookupH st.heapA arrId = some l →
    objEntry (vs.foldl addValue st).heapM pid k = some (SVal.arrRef arrId) ∧
    lookupH (vs.foldl addValue st).heapA arrId = some (l ++ vs) := by
  induction vs with
  | nil =>
    intro st arrId pid k rest l hstack hparent harr
    exact ⟨hparent, by simpa using harr⟩
  | cons v vs ih =>
    intro st arrId pid k rest l hstack hparent harr
    have hstep : addValue st v = { st with heapA := heapArrAppend st.heapA arrId v } := by
      unfold addValue
      rw [hstack]
    have hres := ih (addValue st v) arrId pid k rest (l ++ [v])
      (by rw [hstep]; exact hstack)
      (by rw [hstep]; exact hparent)
      (by rw [hstep]; exact lookupH_heapArrAppend_self st.heapA arrId v l harr)
    simpa using hres

/-- Witness for C7: after feeding the prefix consisting of an opening
brace, the key "a" and an opening bracket to a fresh decoder, the stack
is the array (id 1) on top of the root map, whose entry "a" is the array
pointer; appending five values through `addValue` leaves the root's "a"
entry denoting the array and the array holding all five values. -/
theorem c7_array_relink_witness :
    objEntry (([SVal.int 1, SVal.int 2, SVal.bool true, SVal.str "x",
        SVal.int 5].foldl addValue
        (processString initState ("\x7b\"a\":[").data).1).heapM) 0 "a" =
      some (SVal.arrRef 1) ∧
    lookupH (([SVal.int 1, SVal.int 2, SVal.bool true, SVal.str "x",
        SVal.int 5].foldl addValue
        (processString initState ("\x7b\"a\":[").data).1).heapA) 1 =
      some ([] ++ [SVal.int 1, SVal.int 2, SVal.bool true, SVal.str "x",
        SVal.int 5]) :=
  c7_array_relink [SVal.int 1, SVal.int 2, SVal.bool true, SVal.str "x",
    SVal.int 5] (processString initState ("\x7b\"a\":[").data).1 1 0 "a" [] []
    rfl rfl rfl

/-- When no closing quote or backslash occurs, the string scan consumes
the whole remaining input as the token text. -/
theorem scanStringChars_no_close (l : List Char)
    (h : ∀ c ∈ l, c ≠ '"' ∧ c ≠ '\\') : scanStringChars l = (l, []) := by
  induction l with
  | nil => rfl
  | cons c t ih =>
    have hc := h c (List.mem_cons_self c t)
    have ht := ih (fun x hx => h x (List.mem_cons_of_mem c hx))
    unfold scanStringChars
    rw [if_neg hc.1, if_neg hc.2, ht]

/-- The lexing loop on empty input yields no tokens, whatever the fuel. -/
theorem tokenizeAux_nil (n : Nat) : tokenizeAux n [] = [] := by
  cases n <;> rfl

/-- Claim C3 as amended: a trailing string with an opening quote and no
closing quote is NOT discarded — the lexer emits a string token carrying
the partially scanned text, followed only by the end-of-input token. -/
theorem c3_amended (l : List Char) (h : ∀ c ∈ l, c ≠ '"' ∧ c ≠ '\\') :
    tokenizeChars ('"' :: l) =
      [Token.mk TokenType.string (String.mk l), Token.mk TokenType.eof ""] := by
  have hs := scanStringChars_no_close l h
  unfold tokenizeChars
  show tokenizeAux (l.length + 1 + 1) ('"' :: l) ++ _ = _
  unfold tokenizeAux
  simp [scanToken, hs, tokenizeAux_nil]

/-- Witness for C3's amended claim at the concrete truncated input
consisting of a quote followed by a and b. -/
theorem c3_amended_witness :
    tokenizeChars ('"' :: ['a', 'b']) =
      [Token.mk TokenType.string (String.mk ['a', 'b']),
       Token.mk TokenType.eof ""] :=
  c3_amended ['a', 'b'] (by decide)

/-- The number finalization block is the identity unless a structural
character arrives while the buffer parses as a number. -/
theorem finalizeNumber_id (st : SPState) (c : Char)
    (h : ¬ ((c = ',' ∨ c = '}' ∨ c = ']') ∧ (parseNumberS st.buffer).isSome = true)) :
    finalizeNumber st c = st := by
  unfold finalizeNumber
  split
  · rename_i hcond
    rcases hp : parseNumberS st.buffer with _ | v
    · rfl
    · exact absurd ⟨hcond.1, by rw [hp]; rfl⟩ h
  · rfl

/-- Claim C5 as amended: in in-string mode (not already escaping), a
backslash only sets the escaping flag — it is not buffered — and the
following character `c` is then appended to the token buffer verbatim, so
the committed text contains `c` alone where the input had backslash-`c`
(no interpretation into a target character, and no preserved backslash).
The hypothesis rules out the number-finalization block firing on the
escaped character, which is the only interference (see C1). -/
theorem c5_amended (st : SPState) (c : Char)
    (h1 : st.inString = true) (h2 : st.isEscaping = false)
    (h3 : ¬ ((c = ',' ∨ c = '}' ∨ c = ']') ∧ (parseNumberS st.buffer).isSome = true)) :
    (processChar st '\\').2 = none ∧
    (processChar (processChar st '\\').1 c).2 = none ∧
    ((processChar (processChar st '\\').1 c).1).buffer = st.buffer.push c ∧
    ((processChar (processChar st '\\').1 c).1).inString = true ∧
    ((processChar (processChar st '\\').1 c).1).isEscaping = false := by
  have hst1 : processChar st '\\' =
      ({ st with isEscaping := true, lastChar := '\\'.toString }, none) := by
    rw [processChar, finalizeNumber_nonstructural st '\\' (by decide)]
    unfold processCharRest
    rw [if_pos h1]
    unfold stringModeStep
    rw [if_neg (by simp [h2]), if_pos rfl]
  have hfin := finalizeNumber_id { st with isEscaping := true, lastChar := '\\'.toString } c h3
  have hkey : processChar ({ st with isEscaping := true, lastChar := '\\'.toString }) c =
      ({ st with isEscaping := false, buffer := st.buffer.push c, lastChar := c.toString }, none) := by
    rw [processChar, hfin]
    unfold processCharRest
    rw [if_pos (show ({ st with isEscaping := true, lastChar := '\\'.toString } : SPState).inString = true from h1)]
    unfold stringModeStep
    rw [if_pos rfl]
  simp only [hst1, hkey]
  simp [h1]

/-- Witness for C5's amended claim: inside the string value of an object
(after processing an opening brace, a key and the value's opening quote
plus the letter a), a backslash followed by n buffers just "an". -/
theorem c5_amended_witness :
    (processChar (processString initState ("\x7b\"k\":\"a").data).1 '\\').2 = none ∧
    (processChar (processChar (processString initState
        ("\x7b\"k\":\"a").data).1 '\\').1 'n').2 = none ∧
    ((processChar (processChar (processString initState
        ("\x7b\"k\":\"a").data).1 '\\').1 'n').1).buffer =
      ((processString initState ("\x7b\"k\":\"a").data).1).buffer.push 'n' ∧
    ((processChar (processChar (processString initState
        ("\x7b\"k\":\"a").data).1 '\\').1 'n').1).inString = true ∧
    ((processChar (processChar (processString initState
        ("\x7b\"k\":\"a").data).1 '\\').1 'n').1).isEscaping = false :=
  c5_amended (processString initState ("\x7b\"k\":\"a").data).1 'n'
    (by decide) (by decide) (by decide)

/-! Reset idempotence (claim C8).

A run after `Reset` differs from a fresh run only in that the heap still
carries the previous document's dead containers, shadowed or bypassed by
lookup.  `HExt h1 h2` says heap `h2` agrees with `h1` on every id that is
allocated in `h1` (dead extra cells in `h2` are unconstrained); `SimR`
relates a fresh-run state to the corresponding post-reset state: equal in
every field except that each heap is an `HExt`-extension. -/

/-- Heap extension: every allocated cell of `h1` reads the same in `h2`. -/
def HExt {α : Type} (h1 h2 : List (Nat × α)) : Prop :=
  ∀ id x, lookupH h1 id = some x → lookupH h2 id = some x

theorem hext_refl {α : Type} (h : List (Nat × α)) : HExt h h := fun _ _ hx => hx

/-- Replacing an unallocated id is a no-op. -/
theorem setH_of_lookup_none {α : Type} (h : List (Nat × α)) (id : Nat) (x : α)
    (hl : lookupH h id = none) : setH h id x = h := by
  induction h with
  | nil => rfl
  | cons p t ih =>
    obtain ⟨i, y⟩ := p
    by_cases hp : i = id
    · simp [lookupH, hp] at hl
    · simp [lookupH, setH, hp] at hl ⊢
      exact ih hl

/-- Updating one cell leaves every other id unchanged. -/
theorem lookupH_setH_ne {α : Type} (h : List (Nat × α)) (id j : Nat) (x : α)
    (hne : j ≠ id) : lookupH (setH h id x) j = lookupH h j := by
  induction h with
  | nil => rfl
  | cons p t ih =>
    obtain ⟨i, y⟩ := p
    by_cases hp : i = id
    · subst hp
      simp only [setH, if_pos rfl, lookupH]
      by_cases hij : i = j
      · exact absurd hij.symm hne
      · rw [if_neg hij, if_neg hij]
    · simp only [setH, if_neg hp, lookupH]
      by_cases hij : i = j
      · rw [if_pos hij, if_pos hij]
      · rw [if_neg hij, if_neg hij]
        exact ih

/-- Heap extension is preserved by writing the same key/value into the same map
cell on both sides. -/
theorem HExt.mapWrite (h1 h2 : List (Nat × List (String × SVal)))
    (id : Nat) (k : String) (v : SVal) (he : HExt h1 h2) :
    HExt (heapMapWrite h1 id k v) (heapMapWrite h2 id k v) := by
  intro j y hj
  unfold heapMapWrite at hj ⊢
  rcases hl1 : lookupH h1 id with _ | es
  · rw [hl1] at hj
    rcases hl2 : lookupH h2 id with _ | es2
    · exact he j y hj
    · by_cases hji : j = id
      · subst hji
        rw [hl1] at hj
        exact Option.noConfusion hj
      · rw [lookupH_setH_ne h2 id j _ hji]
        exact he j y hj
  · rw [hl1] at hj
    rw [he id es hl1]
    by_cases hji : j = id
    · subst hji
      rw [lookupH_setH_self h1 j _ es hl1] at hj
      rw [lookupH_setH_self h2 j _ es (he j es hl1)]
      exact hj
    · rw [lookupH_setH_ne h1 id j _ hji] at hj
      rw [lookupH_setH_ne h2 id j _ hji]
      exact he j y hj

/-- Heap extension is preserved by appending the same value to the same array
cell on both sides. -/
theorem HExt.arrAppend (h1 h2 : List (Nat × List SVal)) (id : Nat) (v : SVal)
    (he : HExt h1 h2) :
    HExt (heapArrAppend h1 id v) (heapArrAppend h2 id v) := by
  intro j y hj
  unfold heapArrAppend at hj ⊢
  rcases hl1 : lookupH h1 id with _ | l
  · rw [hl1] at hj
    rcases hl2 : lookupH h2 id with _ | l2
    · exact he j y hj
    · by_cases hji : j = id
      · subst hji
        rw [hl1] at hj
        exact Option.noConfusion hj
      · rw [lookupH_setH_ne h2 id j _ hji]
        exact he j y hj
  · rw [hl1] at hj
    rw [he id l hl1]
    by_cases hji : j = id
    · subst hji
      rw [lookupH_setH_self h1 j _ l hl1] at hj
      rw [lookupH_setH_self h2 j _ l (he j l hl1)]
      exact hj
    · rw [lookupH_setH_ne h1 id j _ hji] at hj
      rw [lookupH_setH_ne h2 id j _ hji]
      exact he j y hj

/-- Heap extension is preserved by allocating the same fresh cell on both sides. -/
theorem HExt.cons {α : Type} (h1 h2 : List (Nat × α)) (n : Nat) (x : α)
    (he : HExt h1 h2) : HExt ((n, x) :: h1) ((n, x) :: h2) := by
  intro j y hj
  unfold lookupH at hj ⊢
  by_cases hn : n = j
  · simpa [hn] using hj
  · rw [if_neg hn] at hj ⊢
    exact he j y hj

/-- The simulation relation for C8: the post-reset state `s2` equals the
fresh-run state `s1` in every field, except that each heap of `s2` is an
`HExt`-extension of the corresponding heap of `s1` (it may additionally
carry the previous document's dead cells). -/
def SimR (s1 s2 : SPState) : Prop :=
  ∃ hm2 ha2, HExt s1.heapM hm2 ∧ HExt s1.heapA ha2 ∧
    s2 = { s1 with heapM := hm2, heapA := ha2 }

theorem simr_refl (s : SPState) : SimR s s :=
  ⟨s.heapM, s.heapA, hext_refl _, hext_refl _, rfl⟩

/-- Committing a value preserves the reset simulation: both sides take the same
branch (stacks and keys agree) and write the same data to the same cell. -/
theorem simr_addValue (s1 s2 : SPState) (v : SVal) (h : SimR s1 s2) :
    SimR (addValue s1 v) (addValue s2 v) := by
  obtain ⟨hm2, ha2, hM, hA, he⟩ := h
  subst he
  obtain ⟨m1, a1, stk, ks, buf, esc, ins, ek, ec, lc, ni⟩ := s1
  dsimp only at hM hA ⊢
  unfold addValue
  dsimp only
  rcases stk with _ | ⟨hd, rest⟩
  · exact ⟨hm2, ha2, hM, hA, rfl⟩
  · rcases hd with id | id
    · rcases ks with _ | ⟨k, kt⟩
      · exact ⟨hm2, ha2, hM, hA, rfl⟩
      · exact ⟨heapMapWrite hm2 id k v, ha2,
          HExt.mapWrite m1 hm2 id k v hM, hA, rfl⟩
    · exact ⟨hm2, heapArrAppend ha2 id v, hM,
        HExt.arrAppend a1 ha2 id v hA, rfl⟩

/-- The number finalization block preserves the reset simulation. -/
theorem simr_finalize (s1 s2 : SPState) (c : Char) (h : SimR s1 s2) :
    SimR (finalizeNumber s1 c) (finalizeNumber s2 c) := by
  obtain ⟨hm2, ha2, hM, hA, he⟩ := h
  subst he
  unfold finalizeNumber
  dsimp only
  split_ifs with hc
  · rcases hp : parseNumberS s1.buffer with _ | v
    · simp only [hp]
      exact ⟨hm2, ha2, hM, hA, rfl⟩
    · simp only [hp]
      obtain ⟨hm2x, ha2x, hMx, hAx, hex⟩ :=
        simr_addValue s1 { s1 with heapM := hm2, heapA := ha2 } v
          ⟨hm2, ha2, hM, hA, rfl⟩
      exact ⟨hm2x, ha2x, hMx, hAx, by rw [hex]⟩
  · exact ⟨hm2, ha2, hM, hA, rfl⟩

theorem simr_stringModeStep (s1 s2 : SPState) (c : Char) (h : SimR s1 s2) :
    (stringModeStep s2 c).2 = (stringModeStep s1 c).2 ∧
    SimR (stringModeStep s1 c).1 (stringModeStep s2 c).1 := by
  obtain ⟨hm2, ha2, hM, hA, he⟩ := h
  subst he
  obtain ⟨m1, a1, stk, ks, buf, esc, ins, ek, ec, lc, ni⟩ := s1
  dsimp only at hM hA ⊢
  unfold stringModeStep
  dsimp only
  split_ifs with h1 h2 h3 h4
  · exact ⟨rfl, hm2, ha2, hM, hA, rfl⟩
  · exact ⟨rfl, hm2, ha2, hM, hA, rfl⟩
  · exact ⟨rfl, hm2, ha2, hM, hA, rfl⟩
  · obtain ⟨hm2x, ha2x, hMx, hAx, hex⟩ :=
      simr_addValue ⟨m1, a1, stk, ks, buf, esc, false, ek, ec, lc, ni⟩
        ⟨hm2, ha2, stk, ks, buf, esc, false, ek, ec, lc, ni⟩ (SVal.str buf)
        ⟨hm2, ha2, hM, hA, rfl⟩
    exact ⟨rfl, hm2x, ha2x, hMx, hAx, by rw [hex]⟩
  · exact ⟨rfl, hm2, ha2, hM, hA, rfl⟩

theorem simr_wsStep (s1 s2 : SPState) (c : Char) (h : SimR s1 s2) :
    (wsStep s2 c).2 = (wsStep s1 c).2 ∧ SimR (wsStep s1 c).1 (wsStep s2 c).1 := by
  obtain ⟨hm2, ha2, hM, hA, he⟩ := h
  subst he
  obtain ⟨m1, a1, stk, ks, buf, esc, ins, ek, ec, lc, ni⟩ := s1
  dsimp only at hM hA ⊢
  exact ⟨rfl, hm2, ha2, hM, hA, rfl⟩

theorem simr_openBraceStep (s1 s2 : SPState) (c : Char) (h : SimR s1 s2) :
    (openBraceStep s2 c).2 = (openBraceStep s1 c).2 ∧
    SimR (openBraceStep s1 c).1 (openBraceStep s2 c).1 := by
  obtain ⟨hm2, ha2, hM, hA, he⟩ := h
  subst he
  obtain ⟨m1, a1, stk, ks, buf, esc, ins, ek, ec, lc, ni⟩ := s1
  dsimp only at hM hA ⊢
  unfold openBraceStep
  dsimp only
  split_ifs with h1
  · exact ⟨rfl, hm2, ha2, hM, hA, rfl⟩
  · obtain ⟨hm2x, ha2x, hMx, hAx, hex⟩ :=
      simr_addValue ⟨(ni, []) :: m1, a1, stk, ks, buf, esc, ins, ek, ec, lc, ni + 1⟩
        ⟨(ni, []) :: hm2, ha2, stk, ks, buf, esc, ins, ek, ec, lc, ni + 1⟩
        (SVal.mapRef ni)
        ⟨(ni, []) :: hm2, ha2, HExt.cons m1 hm2 ni [] hM, hA, rfl⟩
    exact ⟨rfl, hm2x, ha2x, hMx, hAx, by rw [hex]⟩

theorem simr_closeStep (s1 s2 : SPState) (c : Char) (h : SimR s1 s2) :
    (closeStep s2 c).2 = (closeStep s1 c).2 ∧
    SimR (closeStep s1 c).1 (closeStep s2 c).1 := by
  obtain ⟨hm2, ha2, hM, hA, he⟩ := h
  subst he
  obtain ⟨m1, a1, stk, ks, buf, esc, ins, ek, ec, lc, ni⟩ := s1
  dsimp only at hM hA ⊢
  unfold closeStep
  dsimp only
  split_ifs with h1
  · exact ⟨rfl, hm2, ha2, hM, hA, rfl⟩
  · exact ⟨rfl, hm2, ha2, hM, hA, rfl⟩

theorem simr_openBracketStep (s1 s2 : SPState) (c : Char) (h : SimR s1 s2) :
    (openBracketStep s2 c).2 = (openBracketStep s1 c).2 ∧
    SimR (openBracketStep s1 c).1 (openBracketStep s2 c).1 := by
  obtain ⟨hm2, ha2, hM, hA, he⟩ := h
  subst he
  obtain ⟨m1, a1, stk, ks, buf, esc, ins, ek, ec, lc, ni⟩ := s1
  dsimp only at hM hA ⊢
  unfold openBracketStep
  dsimp only
  obtain ⟨hm2x, ha2x, hMx, hAx, hex⟩ :=
    simr_addValue ⟨m1, (ni, []) :: a1, stk, ks, buf, esc, ins, ek, ec, lc, ni + 1⟩
      ⟨hm2, (ni, []) :: ha2, stk, ks, buf, esc, ins, ek, ec, lc, ni + 1⟩
      (SVal.arrRef ni)
      ⟨hm2, (ni, []) :: ha2, hM, HExt.cons a1 ha2 ni [] hA, rfl⟩
  exact ⟨rfl, hm2x, ha2x, hMx, hAx, by rw [hex]⟩

theorem simr_beginStringStep (s1 s2 : SPState) (c : Char) (h : SimR s1 s2) :
    (beginStringStep s2 c).2 = (beginStringStep s1 c).2 ∧
    SimR (beginStringStep s1 c).1 (beginStringStep s2 c).1 := by
  obtain ⟨hm2, ha2, hM, hA, he⟩ := h
  subst he
  obtain ⟨m1, a1, stk, ks, buf, esc, ins, ek, ec, lc, ni⟩ := s1
  dsimp only at hM hA ⊢
  exact ⟨rfl, hm2, ha2, hM, hA, rfl⟩

theorem simr_colonStep (s1 s2 : SPState) (c : Char) (h : SimR s1 s2) :
    (colonStep s2 c).2 = (colonStep s1 c).2 ∧
    SimR (colonStep s1 c).1 (colonStep s2 c).1 := by
  obtain ⟨hm2, ha2, hM, hA, he⟩ := h
  subst he
  obtain ⟨m1, a1, stk, ks, buf, esc, ins, ek, ec, lc, ni⟩ := s1
  dsimp only at hM hA ⊢
  unfold colonStep
  dsimp only
  split_ifs with h1
  · exact ⟨rfl, hm2, ha2, hM, hA, rfl⟩
  · exact ⟨rfl, hm2, ha2, hM, hA, rfl⟩

theorem simr_commaStep (s1 s2 : SPState) (c : Char) (h : SimR s1 s2) :
    (commaStep s2 c).2 = (commaStep s1 c).2 ∧
    SimR (commaStep s1 c).1 (commaStep s2 c).1 := by
  obtain ⟨hm2, ha2, hM, hA, he⟩ := h
  subst he
  obtain ⟨m1, a1, stk, ks, buf, esc, ins, ek, ec, lc, ni⟩ := s1
  dsimp only at hM hA ⊢
  unfold commaStep
  dsimp only
  rcases stk with _ | ⟨hd, rest⟩
  · exact ⟨rfl, hm2, ha2, hM, hA, rfl⟩
  · rcases hd with id | id
    · exact ⟨rfl, hm2, ha2, hM, hA, rfl⟩
    · exact ⟨rfl, hm2, ha2, hM, hA, rfl⟩

theorem simr_tStep (s1 s2 : SPState) (c : Char) (h : SimR s1 s2) :
    (tStep s2 c).2 = (tStep s1 c).2 ∧ SimR (tStep s1 c).1 (tStep s2 c).1 := by
  obtain ⟨hm2, ha2, hM, hA, he⟩ := h
  subst he
  obtain ⟨m1, a1, stk, ks, buf, esc, ins, ek, ec, lc, ni⟩ := s1
  dsimp only at hM hA ⊢
  unfold tStep
  dsimp only
  split_ifs with h1
  · exact ⟨rfl, hm2, ha2, hM, hA, rfl⟩
  · exact ⟨rfl, hm2, ha2, hM, hA, rfl⟩

theorem simr_rStep (s1 s2 : SPState) (c : Char) (h : SimR s1 s2) :
    (rStep s2 c).2 = (rStep s1 c).2 ∧ SimR (rStep s1 c).1 (rStep s2 c).1 := by
  obtain ⟨hm2, ha2, hM, hA, he⟩ := h
  subst he
  obtain ⟨m1, a1, stk, ks, buf, esc, ins, ek, ec, lc, ni⟩ := s1
  dsimp only at hM hA ⊢
  unfold rStep
  dsimp only
  split_ifs with h1
  · exact ⟨rfl, hm2, ha2, hM, hA, rfl⟩
  · exact ⟨rfl, hm2, ha2, hM, hA, rfl⟩

theorem simr_uStep (s1 s2 : SPState) (c : Char) (h : SimR s1 s2) :
    (uStep s2 c).2 = (uStep s1 c).2 ∧ SimR (uStep s1 c).1 (uStep s2 c).1 := by
  obtain ⟨hm2, ha2, hM, hA, he⟩ := h
  subst he
  obtain ⟨m1, a1, stk, ks, buf, esc, ins, ek, ec, lc, ni⟩ := s1
  dsimp only at hM hA ⊢
  unfold uStep
  dsimp only
  split_ifs with h1 h2
  · exact ⟨rfl, hm2, ha2, hM, hA, rfl⟩
  · exact ⟨rfl, hm2, ha2, hM, hA, rfl⟩
  · exact ⟨rfl, hm2, ha2, hM, hA, rfl⟩

theorem simr_eStep (s1 s2 : SPState) (c : Char) (h : SimR s1 s2) :
    (eStep s2 c).2 = (eStep s1 c).2 ∧ SimR (eStep s1 c).1 (eStep s2 c).1 := by
  obtain ⟨hm2, ha2, hM, hA, he⟩ := h
  subst he
  obtain ⟨m1, a1, stk, ks, buf, esc, ins, ek, ec, lc, ni⟩ := s1
  dsimp only at hM hA ⊢
  unfold eStep
  dsimp only
  split_ifs with h1 h2
  · obtain ⟨hm2x, ha2x, hMx, hAx, hex⟩ :=
      simr_addValue ⟨m1, a1, stk, ks, buf, esc, ins, ek, ec, lc, ni⟩
        ⟨hm2, ha2, stk, ks, buf, esc, ins, ek, ec, lc, ni⟩ (SVal.bool true)
        ⟨hm2, ha2, hM, hA, rfl⟩
    exact ⟨rfl, hm2x, ha2x, hMx, hAx, by rw [hex]⟩
  · obtain ⟨hm2x, ha2x, hMx, hAx, hex⟩ :=
      simr_addValue ⟨m1, a1, stk, ks, buf, esc, ins, ek, ec, lc, ni⟩
        ⟨hm2, ha2, stk, ks, buf, esc, ins, ek, ec, lc, ni⟩ (SVal.bool false)
        ⟨hm2, ha2, hM, hA, rfl⟩
    exact ⟨rfl, hm2x, ha2x, hMx, hAx, by rw [hex]⟩
  · exact ⟨rfl, hm2, ha2, hM, hA, rfl⟩

theorem simr_fStep (s1 s2 : SPState) (c : Char) (h : SimR s1 s2) :
    (fStep s2 c).2 = (fStep s1 c).2 ∧ SimR (fStep s1 c).1 (fStep s2 c).1 := by
  obtain ⟨hm2, ha2, hM, hA, he⟩ := h
  subst he
  obtain ⟨m1, a1, stk, ks, buf, esc, ins, ek, ec, lc, ni⟩ := s1
  dsimp only at hM hA ⊢
  unfold fStep
  dsimp only
  split_ifs with h1
  · exact ⟨rfl, hm2, ha2, hM, hA, rfl⟩
  · exact ⟨rfl, hm2, ha2, hM, hA, rfl⟩

theorem simr_aStep (s1 s2 : SPState) (c : Char) (h : SimR s1 s2) :
    (aStep s2 c).2 = (aStep s1 c).2 ∧ SimR (aStep s1 c).1 (aStep s2 c).1 := by
  obtain ⟨hm2, ha2, hM, hA, he⟩ := h
  subst he
  obtain ⟨m1, a1, stk, ks, buf, esc, ins, ek, ec, lc, ni⟩ := s1
  dsimp only at hM hA ⊢
  unfold aStep
  dsimp only
  split_ifs with h1
  · exact ⟨rfl, hm2, ha2, hM, hA, rfl⟩
  · exact ⟨rfl, hm2, ha2, hM, hA, rfl⟩

theorem simr_lStep (s1 s2 : SPState) (c : Char) (h : SimR s1 s2) :
    (lStep s2 c).2 = (lStep s1 c).2 ∧ SimR (lStep s1 c).1 (lStep s2 c).1 := by
  obtain ⟨hm2, ha2, hM, hA, he⟩ := h
  subst he
  obtain ⟨m1, a1, stk, ks, buf, esc, ins, ek, ec, lc, ni⟩ := s1
  dsimp only at hM hA ⊢
  unfold lStep
  dsimp only
  split_ifs with h1 h2 h3
  · exact ⟨rfl, hm2, ha2, hM, hA, rfl⟩
  · exact ⟨rfl, hm2, ha2, hM, hA, rfl⟩
  · obtain ⟨hm2x, ha2x, hMx, hAx, hex⟩ :=
      simr_addValue ⟨m1, a1, stk, ks, buf, esc, ins, ek, ec, lc, ni⟩
        ⟨hm2, ha2, stk, ks, buf, esc, ins, ek, ec, lc, ni⟩ SVal.null
        ⟨hm2, ha2, hM, hA, rfl⟩
    exact ⟨rfl, hm2x, ha2x, hMx, hAx, by rw [hex]⟩
  · exact ⟨rfl, hm2, ha2, hM, hA, rfl⟩

theorem simr_sStep (s1 s2 : SPState) (c : Char) (h : SimR s1 s2) :
    (sStep s2 c).2 = (sStep s1 c).2 ∧ SimR (sStep s1 c).1 (sStep s2 c).1 := by
  obtain ⟨hm2, ha2, hM, hA, he⟩ := h
  subst he
  obtain ⟨m1, a1, stk, ks, buf, esc, ins, ek, ec, lc, ni⟩ := s1
  dsimp only at hM hA ⊢
  unfold sStep
  dsimp only
  split_ifs with h1
  · exact ⟨rfl, hm2, ha2, hM, hA, rfl⟩
  · exact ⟨rfl, hm2, ha2, hM, hA, rfl⟩

theorem simr_nStep (s1 s2 : SPState) (c : Char) (h : SimR s1 s2) :
    (nStep s2 c).2 = (nStep s1 c).2 ∧ SimR (nStep s1 c).1 (nStep s2 c).1 := by
  obtain ⟨hm2, ha2, hM, hA, he⟩ := h
  subst he
  obtain ⟨m1, a1, stk, ks, buf, esc, ins, ek, ec, lc, ni⟩ := s1
  dsimp only at hM hA ⊢
  unfold nStep
  dsimp only
  split_ifs with h1
  · exact ⟨rfl, hm2, ha2, hM, hA, rfl⟩
  · exact ⟨rfl, hm2, ha2, hM, hA, rfl⟩

theorem simr_literalStep (s1 s2 : SPState) (c : Char) (h : SimR s1 s2) :
    (literalStep s2 c).2 = (literalStep s1 c).2 ∧
    SimR (literalStep s1 c).1 (literalStep s2 c).1 := by
  unfold literalStep
  split_ifs
  · exact simr_tStep s1 s2 c h
  · exact simr_rStep s1 s2 c h
  · exact simr_uStep s1 s2 c h
  · exact simr_eStep s1 s2 c h
  · exact simr_fStep s1 s2 c h
  · exact simr_aStep s1 s2 c h
  · exact simr_lStep s1 s2 c h
  · exact simr_sStep s1 s2 c h
  · exact simr_nStep s1 s2 c h

theorem simr_defaultStep (s1 s2 : SPState) (c : Char) (h : SimR s1 s2) :
    (defaultStep s2 c).2 = (defaultStep s1 c).2 ∧
    SimR (defaultStep s1 c).1 (defaultStep s2 c).1 := by
  obtain ⟨hm2, ha2, hM, hA, he⟩ := h
  subst he
  obtain ⟨m1, a1, stk, ks, buf, esc, ins, ek, ec, lc, ni⟩ := s1
  dsimp only at hM hA ⊢
  unfold defaultStep
  dsimp only
  split_ifs with h1
  · exact ⟨rfl, hm2, ha2, hM, hA, rfl⟩
  · exact ⟨rfl, hm2, ha2, hM, hA, rfl⟩

/-- The whole post-finalization step preserves the reset simulation and
produces the same error on both sides. -/
theorem simr_processCharRest (s1 s2 : SPState) (c : Char) (h : SimR s1 s2) :
    (processCharRest s2 c).2 = (processCharRest s1 c).2 ∧
    SimR (processCharRest s1 c).1 (processCharRest s2 c).1 := by
  have hins : s2.inString = s1.inString := by
    obtain ⟨hm2, ha2, hM, hA, he⟩ := h
    subst he
    rfl
  unfold processCharRest
  rw [hins]
  by_cases h1 : s1.inString = true
  · rw [if_pos h1, if_pos h1]
    exact simr_stringModeStep s1 s2 c h
  rw [if_neg h1, if_neg h1]
  by_cases h2 : c = ' ' ∨ c = '\t' ∨ c = '\r' ∨ c = '\n'
  · rw [if_pos h2, if_pos h2]
    exact simr_wsStep s1 s2 c h
  rw [if_neg h2, if_neg h2]
  by_cases h3 : c = '{'
  · rw [if_pos h3, if_pos h3]
    exact simr_openBraceStep s1 s2 c h
  rw [if_neg h3, if_neg h3]
  by_cases h4 : c = '}'
  · rw [if_pos h4, if_pos h4]
    exact simr_closeStep s1 s2 c h
  rw [if_neg h4, if_neg h4]
  by_cases h5 : c = '['
  · rw [if_pos h5, if_pos h5]
    exact simr_openBracketStep s1 s2 c h
  rw [if_neg h5, if_neg h5]
  by_cases h6 : c = ']'
  · rw [if_pos h6, if_pos h6]
    exact simr_closeStep s1 s2 c h
  rw [if_neg h6, if_neg h6]
  by_cases h7 : c = '"'
  · rw [if_pos h7, if_pos h7]
    exact simr_beginStringStep s1 s2 c h
  rw [if_neg h7, if_neg h7]
  by_cases h8 : c = ':'
  · rw [if_pos h8, if_pos h8]
    exact simr_colonStep s1 s2 c h
  rw [if_neg h8, if_neg h8]
  by_cases h9 : c = ','
  · rw [if_pos h9, if_pos h9]
    exact simr_commaStep s1 s2 c h
  rw [if_neg h9, if_neg h9]
  by_cases h10 : c = 't' ∨ c = 'r' ∨ c = 'u' ∨ c = 'e' ∨ c = 'f' ∨ c = 'a' ∨
      c = 'l' ∨ c = 's' ∨ c = 'n'
  · rw [if_pos h10, if_pos h10]
    exact simr_literalStep s1 s2 c h
  rw [if_neg h10, if_neg h10]
  exact simr_defaultStep s1 s2 c h

/-- One full `ProcessChar` call preserves the reset simulation. -/
theorem simr_processChar (s1 s2 : SPState) (c : Char) (h : SimR s1 s2) :
    (processChar s2 c).2 = (processChar s1 c).2 ∧
    SimR (processChar s1 c).1 (processChar s2 c).1 := by
  rw [processChar, processChar]
  exact simr_processCharRest (finalizeNumber s1 c) (finalizeNumber s2 c) c
    (simr_finalize s1 s2 c h)

/-- Whole-string processing preserves the reset simulation: both runs stop
at the same point with the same error (if any), in simulation. -/
theorem simr_processString (cs : List Char) : ∀ s1 s2, SimR s1 s2 →
    (processString s2 cs).2 = (processString s1 cs).2 ∧
    SimR (processString s1 cs).1 (processString s2 cs).1 := by
  induction cs with
  | nil => exact fun s1 s2 h => ⟨rfl, h⟩
  | cons c cs ih =>
    intro s1 s2 h
    obtain ⟨herr, hsim⟩ := simr_processChar s1 s2 c h
    unfold processString
    rcases hp1 : processChar s1 c with ⟨st1, e1⟩
    rcases hp2 : processChar s2 c with ⟨st2, e2⟩
    rw [hp1, hp2] at herr hsim
    dsimp only at herr hsim ⊢
    rcases e1 with _ | msg
    · subst herr
      dsimp only
      exact ih st1 st2 hsim
    · subst herr
      dsimp only
      exact ⟨rfl, hsim⟩

/-- A stored value's container references point to allocated cells. -/
def refOK (hM : List (Nat × List (String × SVal)))
    (hA : List (Nat × List SVal)) : SVal → Prop
  | SVal.mapRef i => (lookupH hM i).isSome = true
  | SVal.arrRef i => (lookupH hA i).isSome = true
  | _ => True

/-- A stack frame's container is an allocated cell of the right kind. -/
def containerOK (hM : List (Nat × List (String × SVal)))
    (hA : List (Nat × List SVal)) : Container → Prop
  | Container.mapC i => (lookupH hM i).isSome = true
  | Container.arrC i => (lookupH hA i).isSome = true

/-- Heap/stack well-formedness of a decoder state: the root cell exists,
every stack frame points at an allocated cell, and every reference stored
inside a heap cell points at an allocated cell.  This holds for every
state reachable from `initState` and is what makes the resolved output
insensitive to dead cells left behind by `Reset`. -/
def ClosedH (hM : List (Nat × List (String × SVal)))
    (hA : List (Nat × List SVal)) (stk : List Container) : Prop :=
  (lookupH hM 0).isSome = true ∧
  (∀ e ∈ stk, containerOK hM hA e) ∧
  (∀ id es, lookupH hM id = some es → ∀ kv ∈ es, refOK hM hA kv.2) ∧
  (∀ id l, lookupH hA id = some l → ∀ v ∈ l, refOK hM hA v)

/-- Well-formedness `Closed` specializes `ClosedH` to a state's own heaps and stack. -/
def Closed (st : SPState) : Prop := ClosedH st.heapM st.heapA st.stack

/-- In-place update never changes which ids are allocated. -/
theorem isSome_setH {α : Type} (h : List (Nat × α)) (id j : Nat) (x : α) :
    (lookupH (setH h id x) j).isSome = (lookupH h j).isSome := by
  by_cases hj : j = id
  · subst hj
    rcases hl : lookupH h j with _ | y
    · rw [setH_of_lookup_none h j x hl, hl]
    · rw [lookupH_setH_self h j x y hl]
      rfl
  · rw [lookupH_setH_ne h id j x hj]

/-- Map-cell writes never change which ids are allocated. -/
theorem isSome_mapWrite (h : List (Nat × List (String × SVal))) (id j : Nat)
    (k : String) (v : SVal) :
    (lookupH (heapMapWrite h id k v) j).isSome = (lookupH h j).isSome := by
  unfold heapMapWrite
  rcases hl : lookupH h id with _ | es
  · rfl
  · exact isSome_setH h id j _

/-- Array-cell appends never change which ids are allocated. -/
theorem isSome_arrAppend (h : List (Nat × List SVal)) (id j : Nat) (v : SVal) :
    (lookupH (heapArrAppend h id v) j).isSome = (lookupH h j).isSome := by
  unfold heapArrAppend
  rcases hl : lookupH h id with _ | l
  · rfl
  · exact isSome_setH h id j _

/-- Allocating a cell keeps every allocated id allocated. -/
theorem isSome_cons_of {α : Type} (h : List (Nat × α)) (n j : Nat) (x : α)
    (hj : (lookupH h j).isSome = true) :
    (lookupH ((n, x) :: h) j).isSome = true := by
  unfold lookupH
  by_cases hn : n = j
  · rw [if_pos hn]
    rfl
  · rw [if_neg hn]
    exact hj

theorem lookupH_cons_self {α : Type} (h : List (Nat × α)) (n : Nat) (x : α) :
    lookupH ((n, x) :: h) n = some x := by
  unfold lookupH
  rw [if_pos rfl]

/-- Reference well-formedness only inspects which ids are allocated. -/
theorem refOK_of_isSome (hM hM' : List (Nat × List (String × SVal)))
    (hA hA' : List (Nat × List SVal)) (v : SVal)
    (hm : ∀ j, (lookupH hM j).isSome = true → (lookupH hM' j).isSome = true)
    (ha : ∀ j, (lookupH hA j).isSome = true → (lookupH hA' j).isSome = true)
    (hv : refOK hM hA v) : refOK hM' hA' v := by
  cases v with
  | mapRef i => exact hm i hv
  | arrRef i => exact ha i hv
  | null => trivial
  | bool b => trivial
  | int n => trivial
  | float s => trivial
  | str s => trivial

/-- Frame well-formedness only inspects which ids are allocated. -/
theorem containerOK_of_isSome (hM hM' : List (Nat × List (String × SVal)))
    (hA hA' : List (Nat × List SVal)) (e : Container)
    (hm : ∀ j, (lookupH hM j).isSome = true → (lookupH hM' j).isSome = true)
    (ha : ∀ j, (lookupH hA j).isSome = true → (lookupH hA' j).isSome = true)
    (hv : containerOK hM hA e) : containerOK hM' hA' e := by
  cases e with
  | mapC i => exact hm i hv
  | arrC i => exact ha i hv

/-- Membership after a map assignment: the new pair or an old entry. -/
theorem mem_assocSet {α : Type} (es : List (String × α)) (k : String) (v : α) :
    ∀ kv ∈ assocSet es k v, kv = (k, v) ∨ kv ∈ es := by
  induction es with
  | nil =>
    intro kv hkv
    simp [assocSet] at hkv
    simp [hkv]
  | cons p t ih =>
    obtain ⟨k0, v0⟩ := p
    intro kv hkv
    by_cases hk : k0 = k
    · subst hk
      simp [assocSet] at hkv
      rcases hkv with hkv | hkv
      · simp [hkv]
      · simp [hkv]
    · simp [assocSet, hk] at hkv
      rcases hkv with hkv | hkv
      · simp [hkv]
      · rcases ih kv hkv with h | h
        · simp [h]
        · simp [h]

/-- Committing a value never changes which map cells are allocated. -/
theorem addValue_isSomeM (st : SPState) (v : SVal) (j : Nat) :
    (lookupH (addValue st v).heapM j).isSome = (lookupH st.heapM j).isSome := by
  unfold addValue
  rcases st.stack with _ | ⟨hd, rest⟩
  · rfl
  · rcases hd with id | id
    · rcases st.keys with _ | ⟨k, kt⟩
      · rfl
      · exact isSome_mapWrite st.heapM id j k v
    · rfl

/-- Committing a value never changes which array cells are allocated. -/
theorem addValue_isSomeA (st : SPState) (v : SVal) (j : Nat) :
    (lookupH (addValue st v).heapA j).isSome = (lookupH st.heapA j).isSome := by
  unfold addValue
  rcases st.stack with _ | ⟨hd, rest⟩
  · rfl
  · rcases hd with id | id
    · rcases st.keys with _ | ⟨k, kt⟩
      · rfl
      · rfl
    · exact isSome_arrAppend st.heapA id j v

/-- Committing a value whose references are allocated preserves heap/stack
well-formedness. -/
theorem closed_addValue (st : SPState) (v : SVal) (h : Closed st)
    (hv : refOK st.heapM st.heapA v) : Closed (addValue st v) := by
  obtain ⟨m1, a1, stk, ks, buf, esc, ins, ek, ec, lc, ni⟩ := st
  unfold Closed at h ⊢
  dsimp only at h hv ⊢
  unfold addValue
  dsimp only
  rcases stk with _ | ⟨hd, rest⟩
  · exact h
  · rcases hd with id | id
    · rcases ks with _ | ⟨k, kt⟩
      · exact h
      · dsimp only
        obtain ⟨hroot, hstk, hMok, hAok⟩ := h
        have hmono : ∀ j, (lookupH m1 j).isSome = true →
            (lookupH (heapMapWrite m1 id k v) j).isSome = true :=
          fun j hj => by rw [isSome_mapWrite m1 id j k v]; exact hj
        refine ⟨by rw [isSome_mapWrite m1 id 0 k v]; exact hroot, ?_, ?_, ?_⟩
        · intro e he
          exact containerOK_of_isSome m1 _ a1 a1 e hmono (fun j hj => hj) (hstk e he)
        · intro id' es' hl' kv hkv
          refine refOK_of_isSome m1 _ a1 a1 _ hmono (fun j hj => hj) ?_
          unfold heapMapWrite at hl'
          rcases hl : lookupH m1 id with _ | es0
          · rw [hl] at hl'
            exact hMok id' es' hl' kv hkv
          · rw [hl] at hl'
            by_cases hid : id' = id
            · subst hid
              rw [lookupH_setH_self m1 id' _ es0 hl] at hl'
              cases hl'
              rcases mem_assocSet es0 k v kv hkv with hkv1 | hkv1
              · rw [hkv1]
                exact hv
              · exact hMok id' es0 hl kv hkv1
            · rw [lookupH_setH_ne m1 id id' _ hid] at hl'
              exact hMok id' es' hl' kv hkv
        · intro id' l hl' x hx
          exact refOK_of_isSome m1 _ a1 a1 _ hmono (fun j hj => hj) (hAok id' l hl' x hx)
    · dsimp only
      obtain ⟨hroot, hstk, hMok, hAok⟩ := h
      have hmono : ∀ j, (lookupH a1 j).isSome = true →
          (lookupH (heapArrAppend a1 id v) j).isSome = true :=
        fun j hj => by rw [isSome_arrAppend a1 id j v]; exact hj
      refine ⟨hroot, ?_, ?_, ?_⟩
      · intro e he
        exact containerOK_of_isSome m1 m1 a1 _ e (fun j hj => hj) hmono (hstk e he)
      · intro id' es' hl' kv hkv
        exact refOK_of_isSome m1 m1 a1 _ _ (fun j hj => hj) hmono (hMok id' es' hl' kv hkv)
      · intro id' l hl' x hx
        refine refOK_of_isSome m1 m1 a1 _ _ (fun j hj => hj) hmono ?_
        unfold heapArrAppend at hl'
        rcases hl : lookupH a1 id with _ | l0
        · rw [hl] at hl'
          exact hAok id' l hl' x hx
        · rw [hl] at hl'
          by_cases hid : id' = id
          · subst hid
            rw [lookupH_setH_self a1 id' _ l0 hl] at hl'
            cases hl'
            rcases List.mem_append.mp hx with hx1 | hx1
            · exact hAok id' l0 hl x hx1
            · rw [List.mem_singleton.mp hx1]
              exact hv
          · rw [lookupH_setH_ne a1 id id' _ hid] at hl'
            exact hAok id' l hl' x hx

/-- Allocating a fresh empty map cell preserves well-formedness. -/
theorem closed_allocM (m1 : List (Nat × List (String × SVal)))
    (a1 : List (Nat × List SVal)) (stk : List Container) (ni : Nat)
    (h : ClosedH m1 a1 stk) : ClosedH ((ni, []) :: m1) a1 stk := by
  obtain ⟨hroot, hstk, hMok, hAok⟩ := h
  have hmono : ∀ j, (lookupH m1 j).isSome = true →
      (lookupH ((ni, []) :: m1) j).isSome = true :=
    fun j hj => isSome_cons_of m1 ni j [] hj
  refine ⟨hmono 0 hroot, ?_, ?_, ?_⟩
  · intro e he
    exact containerOK_of_isSome m1 _ a1 a1 e hmono (fun j hj => hj) (hstk e he)
  · intro id es hl kv hkv
    refine refOK_of_isSome m1 _ a1 a1 _ hmono (fun j hj => hj) ?_
    unfold lookupH at hl
    by_cases hn : ni = id
    · rw [if_pos hn] at hl
      cases hl
      exact absurd hkv (List.not_mem_nil kv)
    · rw [if_neg hn] at hl
      exact hMok id es hl kv hkv
  · intro id l hl x hx
    exact refOK_of_isSome m1 _ a1 a1 _ hmono (fun j hj => hj) (hAok id l hl x hx)

/-- Allocating a fresh empty array cell preserves well-formedness. -/
theorem closed_allocA (m1 : List (Nat × List (String × SVal)))
    (a1 : List (Nat × List SVal)) (stk : List Container) (ni : Nat)
    (h : ClosedH m1 a1 stk) : ClosedH m1 ((ni, []) :: a1) stk := by
  obtain ⟨hroot, hstk, hMok, hAok⟩ := h
  have hmono : ∀ j, (lookupH a1 j).isSome = true →
      (lookupH ((ni, []) :: a1) j).isSome = true :=
    fun j hj => isSome_cons_of a1 ni j [] hj
  refine ⟨hroot, ?_, ?_, ?_⟩
  · intro e he
    exact containerOK_of_isSome m1 m1 a1 _ e (fun j hj => hj) hmono (hstk e he)
  · intro id es hl kv hkv
    exact refOK_of_isSome m1 m1 a1 _ _ (fun j hj => hj) hmono (hMok id es hl kv hkv)
  · intro id l hl x hx
    refine refOK_of_isSome m1 m1 a1 _ _ (fun j hj => hj) hmono ?_
    unfold lookupH at hl
    by_cases hn : ni = id
    · rw [if_pos hn] at hl
      cases hl
      exact absurd hx (List.not_mem_nil x)
    · rw [if_neg hn] at hl
      exact hAok id l hl x hx

/-- The finalized number is an immediate value (int or float). -/
theorem parseNumberS_refOK (buf : String) (v : SVal)
    (hM : List (Nat × List (String × SVal))) (hA : List (Nat × List SVal))
    (h : parseNumberS buf = some v) : refOK hM hA v := by
  unfold parseNumberS at h
  rcases hg : parseGoInt64 buf with _ | i
  · rw [hg] at h
    dsimp only at h
    split_ifs at h
    cases h
    trivial
  · rw [hg] at h
    dsimp only at h
    cases h
    trivial

theorem closed_finalize (st : SPState) (c : Char) (h : Closed st) :
    Closed (finalizeNumber st c) := by
  unfold finalizeNumber
  split_ifs with h1
  · rcases hp : parseNumberS st.buffer with _ | v
    · exact h
    · exact closed_addValue st v h (parseNumberS_refOK st.buffer v _ _ hp)
  · exact h

theorem closed_stringModeStep (st : SPState) (c : Char) (h : Closed st) :
    Closed (stringModeStep st c).1 := by
  obtain ⟨m1, a1, stk, ks, buf, esc, ins, ek, ec, lc, ni⟩ := st
  unfold stringModeStep
  dsimp only
  split_ifs with h1 h2 h3 h4
  · exact h
  · exact h
  · exact h
  · exact closed_addValue ⟨m1, a1, stk, ks, buf, esc, false, ek, ec, lc, ni⟩
      (SVal.str buf) h trivial
  · exact h

theorem closed_closeStep (st : SPState) (c : Char) (h : Closed st) :
    Closed (closeStep st c).1 := by
  obtain ⟨m1, a1, stk, ks, buf, esc, ins, ek, ec, lc, ni⟩ := st
  unfold closeStep
  dsimp only
  split_ifs with h1
  · obtain ⟨hroot, hstk, hMok, hAok⟩ := h
    exact ⟨hroot, fun e he => hstk e (List.mem_of_mem_tail he), hMok, hAok⟩
  · exact h

theorem closed_openBraceStep (st : SPState) (c : Char) (h : Closed st) :
    Closed (openBraceStep st c).1 := by
  obtain ⟨m1, a1, stk, ks, buf, esc, ins, ek, ec, lc, ni⟩ := st
  unfold openBraceStep
  dsimp only
  split_ifs with h1
  · exact h
  · have hst1 : Closed ⟨(ni, []) :: m1, a1, stk, ks, buf, esc, ins, ek, ec, lc,
        ni + 1⟩ := closed_allocM m1 a1 stk ni h
    have href : refOK ((ni, []) :: m1) a1 (SVal.mapRef ni) := by
      show (lookupH ((ni, []) :: m1) ni).isSome = true
      rw [lookupH_cons_self]
      rfl
    have hst2 := closed_addValue ⟨(ni, []) :: m1, a1, stk, ks, buf, esc, ins, ek,
      ec, lc, ni + 1⟩ (SVal.mapRef ni) hst1 href
    obtain ⟨hroot, hstk, hMok, hAok⟩ := hst2
    refine ⟨hroot, ?_, hMok, hAok⟩
    intro e he
    rcases List.mem_cons.mp he with he1 | he1
    · subst he1
      show (lookupH (addValue _ _).heapM ni).isSome = true
      rw [addValue_isSomeM]
      show (lookupH ((ni, []) :: m1) ni).isSome = true
      rw [lookupH_cons_self]
      rfl
    · exact hstk e he1

theorem closed_openBracketStep (st : SPState) (c : Char) (h : Closed st) :
    Closed (openBracketStep st c).1 := by
  obtain ⟨m1, a1, stk, ks, buf, esc, ins, ek, ec, lc, ni⟩ := st
  unfold openBracketStep
  dsimp only
  have hst1 : Closed ⟨m1, (ni, []) :: a1, stk, ks, buf, esc, ins, ek, ec, lc,
      ni + 1⟩ := closed_allocA m1 a1 stk ni h
  have href : refOK m1 ((ni, []) :: a1) (SVal.arrRef ni) := by
    show (lookupH ((ni, []) :: a1) ni).isSome = true
    rw [lookupH_cons_self]
    rfl
  have hst2 := closed_addValue ⟨m1, (ni, []) :: a1, stk, ks, buf, esc, ins, ek,
    ec, lc, ni + 1⟩ (SVal.arrRef ni) hst1 href
  obtain ⟨hroot, hstk, hMok, hAok⟩ := hst2
  refine ⟨hroot, ?_, hMok, hAok⟩
  intro e he
  rcases List.mem_cons.mp he with he1 | he1
  · subst he1
    show (lookupH (addValue _ _).heapA ni).isSome = true
    rw [addValue_isSomeA]
    show (lookupH ((ni, []) :: a1) ni).isSome = true
    rw [lookupH_cons_self]
    rfl
  · exact hstk e he1

theorem closed_commaStep (st : SPState) (c : Char) (h : Closed st) :
    Closed (commaStep st c).1 := by
  obtain ⟨m1, a1, stk, ks, buf, esc, ins, ek, ec, lc, ni⟩ := st
  unfold commaStep
  dsimp only
  rcases stk with _ | ⟨hd, rest⟩
  · exact h
  · rcases hd with id | id
    · exact h
    · exact h

theorem closed_eStep (st : SPState) (c : Char) (h : Closed st) :
    Closed (eStep st c).1 := by
  obtain ⟨m1, a1, stk, ks, buf, esc, ins, ek, ec, lc, ni⟩ := st
  unfold eStep
  dsimp only
  split_ifs with h1 h2
  · exact closed_addValue ⟨m1, a1, stk, ks, buf, esc, ins, ek, ec, lc, ni⟩
      (SVal.bool true) h trivial
  · exact closed_addValue ⟨m1, a1, stk, ks, buf, esc, ins, ek, ec, lc, ni⟩
      (SVal.bool false) h trivial
  · exact h

theorem closed_lStep (st : SPState) (c : Char) (h : Closed st) :
    Closed (lStep st c).1 := by
  obtain ⟨m1, a1, stk, ks, buf, esc, ins, ek, ec, lc, ni⟩ := st
  unfold lStep
  dsimp only
  split_ifs with h1 h2 h3
  · exact h
  · exact h
  · exact closed_addValue ⟨m1, a1, stk, ks, buf, esc, ins, ek, ec, lc, ni⟩
      SVal.null h trivial
  · exact h

theorem closed_literalStep (st : SPState) (c : Char) (h : Closed st) :
    Closed (literalStep st c).1 := by
  unfold literalStep
  split_ifs with h1 h2 h3 h4 h5 h6 h7 h8
  · unfold tStep
    split_ifs <;> exact h
  · unfold rStep
    split_ifs <;> exact h
  · unfold uStep
    split_ifs <;> exact h
  · exact closed_eStep st c h
  · unfold fStep
    split_ifs <;> exact h
  · unfold aStep
    split_ifs <;> exact h
  · exact closed_lStep st c h
  · unfold sStep
    split_ifs <;> exact h
  · unfold nStep
    split_ifs <;> exact h

theorem closed_processCharRest (st : SPState) (c : Char) (h : Closed st) :
    Closed (processCharRest st c).1 := by
  unfold processCharRest
  by_cases h1 : st.inString = true
  · rw [if_pos h1]
    exact closed_stringModeStep st c h
  rw [if_neg h1]
  by_cases h2 : c = ' ' ∨ c = '\t' ∨ c = '\r' ∨ c = '\n'
  · rw [if_pos h2]
    exact h
  rw [if_neg h2]
  by_cases h3 : c = '{'
  · rw [if_pos h3]
    exact closed_openBraceStep st c h
  rw [if_neg h3]
  by_cases h4 : c = '}'
  · rw [if_pos h4]
    exact closed_closeStep st c h
  rw [if_neg h4]
  by_cases h5 : c = '['
  · rw [if_pos h5]
    exact closed_openBracketStep st c h
  rw [if_neg h5]
  by_cases h6 : c = ']'
  · rw [if_pos h6]
    exact closed_closeStep st c h
  rw [if_neg h6]
  by_cases h7 : c = '"'
  · rw [if_pos h7]
    exact h
  rw [if_neg h7]
  by_cases h8 : c = ':'
  · rw [if_pos h8]
    unfold colonStep
    split_ifs <;> exact h
  rw [if_neg h8]
  by_cases h9 : c = ','
  · rw [if_pos h9]
    exact closed_commaStep st c h
  rw [if_neg h9]
  by_cases h10 : c = 't' ∨ c = 'r' ∨ c = 'u' ∨ c = 'e' ∨ c = 'f' ∨ c = 'a' ∨
      c = 'l' ∨ c = 's' ∨ c = 'n'
  · rw [if_pos h10]
    exact closed_literalStep st c h
  rw [if_neg h10]
  unfold defaultStep
  split_ifs <;> exact h

theorem closed_processChar (st : SPState) (c : Char) (h : Closed st) :
    Closed (processChar st c).1 :=
  closed_processCharRest (finalizeNumber st c) c (closed_finalize st c h)

theorem closed_processString (cs : List Char) : ∀ st, Closed st →
    Closed (processString st cs).1 := by
  induction cs with
  | nil => exact fun st h => h
  | cons c cs ih =>
    intro st h
    unfold processString
    rcases hp : processChar st c with ⟨st1, e1⟩
    have h1 : Closed st1 := by
      have := closed_processChar st c h
      rw [hp] at this
      exact this
    rcases e1 with _ | msg
    · exact ih st1 h1
    · exact h1

theorem closed_initState : Closed initState := by
  refine ⟨rfl, ?_, ?_, ?_⟩
  · intro e he
    rcases List.mem_singleton.mp he with rfl
    rfl
  · intro id es hl kv hkv
    simp only [initState] at hl
    unfold lookupH at hl
    by_cases h0 : 0 = id
    · rw [if_pos h0] at hl
      cases hl
      exact absurd hkv (List.not_mem_nil kv)
    · rw [if_neg h0] at hl
      exact Option.noConfusion hl
  · intro id l hl x hx
    exact Option.noConfusion hl

/-- Resolving a value reads only allocated cells, so a closed heap and any
`HExt`-extension of it resolve every well-referenced value identically —
dead cells left by `Reset` are invisible to the output. -/
theorem resolve_simr (hM1 hM2 : List (Nat × List (String × SVal)))
    (hA1 hA2 : List (Nat × List SVal))
    (heM : HExt hM1 hM2) (heA : HExt hA1 hA2)
    (hMok : ∀ id es, lookupH hM1 id = some es → ∀ kv ∈ es, refOK hM1 hA1 kv.2)
    (hAok : ∀ id l, lookupH hA1 id = some l → ∀ v ∈ l, refOK hM1 hA1 v) :
    ∀ (fuel : Nat) (v : SVal), refOK hM1 hA1 v →
      resolveV hM1 hA1 fuel v = resolveV hM2 hA2 fuel v := by
  intro fuel
  induction fuel with
  | zero =>
    intro v hv
    cases v <;> rfl
  | succ n ih =>
    intro v hv
    cases v with
    | null => rfl
    | bool b => rfl
    | int m => rfl
    | float s => rfl
    | str s => rfl
    | mapRef i =>
      rcases hl : lookupH hM1 i with _ | es
      · exact absurd hv (by rw [show refOK hM1 hA1 (SVal.mapRef i) =
          ((lookupH hM1 i).isSome = true) from rfl, hl]; simp)
      · have hl2 := heM i es hl
        unfold resolveV
        rw [hl, hl2]
        dsimp only [Option.getD]
        congr 1
        apply List.map_congr_left
        intro kv hkv
        have hr := hMok i es hl kv hkv
        rw [ih kv.2 hr]
    | arrRef i =>
      rcases hl : lookupH hA1 i with _ | l
      · exact absurd hv (by rw [show refOK hM1 hA1 (SVal.arrRef i) =
          ((lookupH hA1 i).isSome = true) from rfl, hl]; simp)
      · have hl2 := heA i l hl
        unfold resolveV
        rw [hl, hl2]
        dsimp only [Option.getD]
        congr 1
        apply List.map_congr_left
        intro x hx
        have hr := hAok i l hl x hx
        rw [ih x hr]

/-- After any run whose root cell is still allocated, the reset state is
an `HExt`-extension of the fresh initial state. -/
theorem simr_reset (st : SPState) (hroot : (lookupH st.heapM 0).isSome = true) :
    SimR initState (resetState st) := by
  refine ⟨setH st.heapM 0 [], st.heapA, ?_, ?_, rfl⟩
  · intro j x hj
    simp only [initState] at hj
    unfold lookupH at hj
    by_cases h0 : 0 = j
    · rw [if_pos h0] at hj
      cases hj
      subst h0
      rcases ho : lookupH st.heapM 0 with _ | es
      · rw [ho] at hroot
        simp at hroot
      · exact lookupH_setH_self st.heapM 0 [] es ho
    · rw [if_neg h0] at hj
      exact Option.noConfusion hj
  · intro j x hj
    exact Option.noConfusion hj

/-- Claim C8: for every prior document A and every document B, calling
`Reset` after processing A and then feeding B character by character
produces the same error behavior and exactly the same resolved output
mapping as feeding B to a freshly created parser. -/
theorem c8_reset_idempotence (A B : String) :
    (processString (resetState (processString initState A.data).1) B.data).2 =
      (processString initState B.data).2 ∧
    resolveOutput
        (processString (resetState (processString initState A.data).1) B.data).1 =
      resolveOutput (processString initState B.data).1 := by
  have hclosedA : Closed (processString initState A.data).1 :=
    closed_processString A.data initState closed_initState
  have hsim0 : SimR initState (resetState (processString initState A.data).1) :=
    simr_reset _ hclosedA.1
  obtain ⟨herr, hsimF⟩ := simr_processString B.data initState
    (resetState (processString initState A.data).1) hsim0
  have hclosedB : Closed (processString initState B.data).1 :=
    closed_processString B.data initState closed_initState
  refine ⟨herr, ?_⟩
  obtain ⟨hm2, ha2, hM, hA2, he⟩ := hsimF
  rw [he]
  unfold resolveOutput
  dsimp only
  obtain ⟨hroot, hstk, hMok, hAok⟩ := hclosedB
  exact (resolve_simr _ _ _ _ hM hA2 hMok hAok _ (SVal.mapRef 0) hroot).symm
